import Mathlib

/-!
Verification of `haproxy/config.go`.

A shallow embedding of `src/haproxy/config.go`: the default parameter table, the two
configuration templates, `createRandomString` and `newHaConfig`, together with the
parts of the Go standard library they call (`text/template`, `path`, `encoding/base64`),
followed by the theorems that settle the specification claims.

Go strings are embedded as Lean `String`s; bytes are natural numbers below 256.
-/

namespace HaproxyConfig

/-! ## Strings -/

/-- Concatenation of a list of strings, left to right. -/
def concat : List String → String
  | [] => ""
  | s :: rest => s ++ concat rest

/-- Lexicographic comparison of two character sequences by code point. Go compares
strings byte by byte; on UTF-8 text both orders agree. -/
def lexLess : List Char → List Char → Bool
  | _, [] => false
  | [], _ :: _ => true
  | a :: as, b :: bs => decide (a.toNat < b.toNat) || (a.toNat == b.toNat && lexLess as bs)

/-- Go's `a < b` on strings. -/
def strLess (a b : String) : Bool := lexLess a.data b.data

/-- Go's `a <= b` on strings. -/
def strLessEq (a b : String) : Bool := !strLess b a

/-! ## `map[string][]string` and `utils.HAProxyParams` -/

/-- A Go `map[string][]string`, kept as its list of entries. A Go map holds one entry
per key; the order of the list carries no meaning, every iteration below sorts it. -/
abbrev GoMap := List (String × List String)

/-- Assignment `m[k] = v`: an existing entry for `k` is replaced, otherwise a new entry
is added. -/
def GoMap.set (k : String) (v : List String) : GoMap → GoMap
  | [] => [(k, v)]
  | e :: rest => if e.1 = k then (k, v) :: rest else e :: GoMap.set k v rest

/-- Insertion of an entry into a list sorted by key. -/
def insertByKey (e : String × List String) : GoMap → GoMap
  | [] => [e]
  | x :: rest => if strLessEq e.1 x.1 then e :: x :: rest else x :: insertByKey e rest

/-- Entries sorted by key (insertion sort). -/
def sortByKey : GoMap → GoMap
  | [] => []
  | e :: rest => insertByKey e (sortByKey rest)

namespace utils

/-- The struct `utils.HAProxyParams`. -/
structure HAProxyParams where
  Defaults : GoMap
  Globals : GoMap

/-- Modelled from the spec: the merge of one group, used by `With`, which is not part of
the visible source. The result is `base` in which every entry of `over` has been
assigned, so a keyword of `over` replaces the argument sequence of `base`. -/
def mergeMap (base over : GoMap) : GoMap :=
  over.foldl (fun m e => GoMap.set e.1 e.2 m) base

/-- Modelled from the spec: `utils.HAProxyParams.With` is not part of the visible source.
Spec 4.1: for every group the result holds the union of the keywords of both inputs; a
keyword present in both takes the argument sequence of the override; a keyword present
in one input only is copied through unchanged; neither input is modified. -/
def HAProxyParams.With (p other : HAProxyParams) : HAProxyParams :=
  { Defaults := mergeMap p.Defaults other.Defaults
    Globals := mergeMap p.Globals other.Globals }

end utils

/-- The package variable `defaultsHAProxyParams`. The argument stands for the value of
`runtime.GOMAXPROCS(0)`; `fmt.Sprint` of an integer is its decimal rendering. -/
def defaultsHAProxyParams (gomaxprocs : Nat) : utils.HAProxyParams :=
  { Globals := [("stats", ["timeout 2m"]),
                ("tune.ssl.default-dh-param", ["1024"]),
                ("nbthread", [toString gomaxprocs]),
                ("ulimit-n", ["65536"]),
                ("maxconn", ["32000"])]
    Defaults := [("http-reuse", ["always"])] }

/-- The constant `baseCfgTmpl`. -/
def baseCfgTmpl : String :=
"
global
\tmaster-worker
\tstats socket \x7b\x7b.SocketPath\x7d\x7d mode 600 level admin expose-fd listeners
\t\x7b\x7b- range $k, $vs := .HAProxyParams.Globals\x7d\x7d
\t\x7b\x7b- range $v := $vs\x7d\x7d
\t\x7b\x7b$k\x7d\x7d \x7b\x7b$v\x7d\x7d
\t\x7b\x7b- end \x7d\x7d
\t\x7b\x7b- end \x7d\x7d

defaults
\t\x7b\x7b- range $k, $vs := .HAProxyParams.Defaults\x7d\x7d
\t\x7b\x7b- range $v := $vs\x7d\x7d
\t\x7b\x7b$k\x7d\x7d \x7b\x7b$v\x7d\x7d
\t\x7b\x7b- end \x7d\x7d
\t\x7b\x7b- end \x7d\x7d
\tcompression algo gzip
\tcompression type text/css text/html text/javascript application/javascript text/plain text/xml application/json

userlist controller
\tuser \x7b\x7b.DataplaneUser\x7d\x7d insecure-password \x7b\x7b.DataplanePass\x7d\x7d

"

/-- The constant `spoeConfTmpl`. -/
def spoeConfTmpl : String :=
"
[intentions]

spoe-agent intentions-agent
\tmessages check-intentions

\toption var-prefix connect

\ttimeout hello      3000ms
\ttimeout idle       3000s
\ttimeout processing 3000ms

\tuse-backend spoe_back

spoe-message check-intentions
\targs ip=src cert=ssl_c_der
\tevent on-frontend-tcp-request

"

/-- The struct `baseParams`, the data handed to the main template. -/
structure baseParams where
  SocketPath : String
  DataplaneUser : String
  DataplanePass : String
  HAProxyParams : utils.HAProxyParams

/-- The struct `haConfig`. -/
structure haConfig where
  Base : String
  HAProxy : String
  SPOE : String
  SPOESock : String
  StatsSock : String
  DataplaneSock : String
  DataplaneTransactionDir : String
  DataplaneUser : String
  DataplanePass : String
  LogsSock : String
deriving DecidableEq, Repr

/-! ## `text/template`

The fragment of the template language used by `baseCfgTmpl`: text, the delimiters with
their trim markers, field chains, variables, `range` with one or two variables, `end`. -/

/-- Whitespace for the trim markers of the template lexer. -/
def isSpace (c : Char) : Bool := c == ' ' || c == '\t' || c == '\r' || c == '\n'

/-- Splits the input at the first occurrence of the two-character delimiter `a b`:
the text before it and the text after it. -/
def splitOnPair (a b : Char) : List Char → Option (List Char × List Char)
  | [] => none
  | c :: rest =>
    match rest with
    | [] => none
    | d :: rest2 =>
      if c == a && d == b then some ([], rest2)
      else (splitOnPair a b rest).map (fun pq => (c :: pq.1, pq.2))

/-- Removes trailing whitespace. -/
def trimRight (s : List Char) : List Char := (s.reverse.dropWhile isSpace).reverse

/-- Removes leading whitespace. -/
def trimLeft (s : List Char) : List Char := s.dropWhile isSpace

/-- Lexical items: literal text, and the inside of an action with its markers removed. -/
inductive Item where
  | text : List Char → Item
  | action : List Char → Item
deriving DecidableEq, Repr

/-- Left trim marker: a minus sign followed by whitespace right after the opening
delimiter. Returns whether it is present and the rest of the action. -/
def stripLeftMarker : List Char → Bool × List Char
  | '-' :: c :: rest => if isSpace c then (true, c :: rest) else (false, '-' :: c :: rest)
  | s => (false, s)

/-- Right trim marker: whitespace followed by a minus sign right before the closing
delimiter. -/
def stripRightMarker (body : List Char) : Bool × List Char :=
  match body.reverse with
  | '-' :: c :: rest => if isSpace c then (true, (c :: rest).reverse) else (false, body)
  | _ => (false, body)

/-- A text item; the lexer emits no empty text. -/
def textItem (s : List Char) : List Item := if s.isEmpty then [] else [Item.text s]

/-- The lexer: `none` for an unclosed action (or exhausted fuel). -/
def lexItems : Nat → List Char → Option (List Item)
  | 0, _ => none
  | fuel + 1, input =>
    match splitOnPair (Char.ofNat 123) (Char.ofNat 123) input with
    | none => some (textItem input)
    | some (txt, rest) =>
      let lm := stripLeftMarker rest
      let txt2 := if lm.1 then trimRight txt else txt
      match splitOnPair (Char.ofNat 125) (Char.ofNat 125) lm.2 with
      | none => none
      | some (body, after) =>
        let rm := stripRightMarker body
        let after2 := if rm.1 then trimLeft after else after
        (lexItems fuel after2).map (fun items => textItem txt2 ++ Item.action rm.2 :: items)

/-- Words of an action: separated by whitespace, a comma being a word of its own. -/
def wordsAux : List Char → List Char → List (List Char)
  | [], cur => if cur.isEmpty then [] else [cur.reverse]
  | c :: rest, cur =>
    if isSpace c then
      (if cur.isEmpty then [] else [cur.reverse]) ++ wordsAux rest []
    else if c == ',' then
      (if cur.isEmpty then [] else [cur.reverse]) ++ [[',']] ++ wordsAux rest []
    else wordsAux rest (c :: cur)

/-- Words of an action as strings. -/
def words (s : List Char) : List String := (wordsAux s []).map String.mk

/-- Splits a character sequence at every occurrence of a separator. -/
def splitChar (sep : Char) : List Char → List (List Char)
  | [] => [[]]
  | c :: rest =>
    match splitChar sep rest with
    | [] => [[c]]
    | w :: ws => if c == sep then [] :: w :: ws else (c :: w) :: ws

/-- Operands of an action: a chain of field names applied to dot, or a variable. -/
inductive Operand where
  | field : List String → Operand
  | var : String → Operand
deriving DecidableEq, Repr

/-- Reads `.A.B` as a field chain and `$x` as a variable. -/
def parseOperand (w : String) : Option Operand :=
  match w.data with
  | '.' :: rest =>
    if rest.isEmpty then some (Operand.field [])
    else
      let names := (splitChar '.' rest).map String.mk
      if names.any (fun n => n.data.isEmpty) then none else some (Operand.field names)
  | '$' :: rest => some (Operand.var (String.mk rest))
  | _ => none

/-- Parsed actions. -/
inductive Action where
  | print : Operand → Action
  | range : List String → Operand → Action
  | endBlock : Action
deriving DecidableEq, Repr

/-- Name of a variable in a declaration, without its dollar sign. -/
def varName (w : String) : Option String :=
  match w.data with
  | '$' :: rest => some (String.mk rest)
  | _ => none

/-- Parser of one action. -/
def parseAction (body : List Char) : Option Action :=
  match words body with
  | ["end"] => some Action.endBlock
  | ["range", e] => (parseOperand e).map (Action.range [])
  | ["range", v, ":=", e] =>
    match varName v, parseOperand e with
    | some x, some o => some (Action.range [x] o)
    | _, _ => none
  | ["range", k, ",", v, ":=", e] =>
    match varName k, varName v, parseOperand e with
    | some x, some y, some o => some (Action.range [x, y] o)
    | _, _, _ => none
  | [e] => (parseOperand e).map Action.print
  | _ => none

/-- Nodes of a parsed template. -/
inductive Node where
  | text : String → Node
  | print : Operand → Node
  | range : List String → Operand → List Node → Node
deriving Repr

/-- Builds the node list from the items up to the end of input (`none` as rest) or up
to the `end` that closes the enclosing block (the items after it as rest). -/
def parseNodes : Nat → List Item → Option (List Node × Option (List Item))
  | 0, _ => none
  | _ + 1, [] => some ([], none)
  | fuel + 1, Item.text s :: rest =>
    (parseNodes fuel rest).map (fun r => (Node.text (String.mk s) :: r.1, r.2))
  | fuel + 1, Item.action a :: rest =>
    match parseAction a with
    | none => none
    | some Action.endBlock => some ([], some rest)
    | some (Action.print o) =>
      (parseNodes fuel rest).map (fun r => (Node.print o :: r.1, r.2))
    | some (Action.range vars o) =>
      match parseNodes fuel rest with
      | some (body, some rest2) =>
        (parseNodes fuel rest2).map (fun r => (Node.range vars o body :: r.1, r.2))
      | _ => none

/-- The call `template.New(name).Parse(text)`: the parsed template, or `none` for a
parse error. -/
def templateParse (text : String) : Option (List Node) :=
  match lexItems (text.data.length + 1) text.data with
  | none => none
  | some items =>
    match parseNodes (items.length + 1) items with
    | some (nodes, none) => some nodes
    | _ => none

/-- Values reachable from the data of the main template. -/
inductive Value where
  | str : String → Value
  | strs : List String → Value
  | strMap : GoMap → Value
  | params : utils.HAProxyParams → Value
  | base : baseParams → Value

/-- Field access by name, following the struct declarations. -/
def Value.field (v : Value) (name : String) : Option Value :=
  match v with
  | Value.base b =>
    if name = "SocketPath" then some (Value.str b.SocketPath)
    else if name = "DataplaneUser" then some (Value.str b.DataplaneUser)
    else if name = "DataplanePass" then some (Value.str b.DataplanePass)
    else if name = "HAProxyParams" then some (Value.params b.HAProxyParams)
    else none
  | Value.params p =>
    if name = "Defaults" then some (Value.strMap p.Defaults)
    else if name = "Globals" then some (Value.strMap p.Globals)
    else none
  | _ => none

/-- Variables in scope, innermost first. -/
abbrev Vars := List (String × Value)

/-- Value of an operand. -/
def evalOperand (dot : Value) (vars : Vars) : Operand → Option Value
  | Operand.field names => names.foldlM Value.field dot
  | Operand.var x => (vars.find? (fun b => b.1 == x)).map Prod.snd

/-- The iterations of a `range`: for each element its key (for a map) and its value;
a map is visited in ascending key order, a slice in index order. -/
def rangeElems : Value → Option (List (Option Value × Value))
  | Value.strs xs => some (xs.map (fun x => (none, Value.str x)))
  | Value.strMap m => some ((sortByKey m).map (fun e => (some (Value.str e.1), Value.strs e.2)))
  | _ => none

/-- Variables declared by a `range` for one iteration: one variable takes the element,
two variables take the key and the element. -/
def bindRange (declared : List String) (key : Option Value) (elem : Value) (vars : Vars) :
    Option Vars :=
  match declared, key with
  | [], _ => some vars
  | [x], _ => some ((x, elem) :: vars)
  | [x, y], some k => some ((y, elem) :: (x, k) :: vars)
  | _, _ => none

/-- Outcome of executing (part of) a template: the chunks handed to the writer so far,
and whether execution went through without an error. -/
structure ExecOut where
  chunks : List String
  ok : Bool
deriving DecidableEq, Repr

/-- Runs `f` on the elements in order and appends the chunks; stops at the first
element on which `f` reports an error. -/
def collectChunks {α : Type} (f : α → ExecOut) : List α → ExecOut
  | [] => ⟨[], true⟩
  | a :: rest =>
    let r := f a
    if r.ok then
      let rs := collectChunks f rest
      ⟨r.chunks ++ rs.chunks, rs.ok⟩
    else r

/-- Execution of one node, `exec` being the execution of the node list of a nested
block: a text node writes its text, a printed operand must be a string and is written
as it is, a `range` runs its body once per element with dot set to the element. -/
def execNode (exec : List Node → Value → Vars → ExecOut) (dot : Value) (vars : Vars) :
    Node → ExecOut
  | Node.text s => ⟨[s], true⟩
  | Node.print o =>
    match evalOperand dot vars o with
    | some (Value.str s) => ⟨[s], true⟩
    | _ => ⟨[], false⟩
  | Node.range declared o body =>
    match (evalOperand dot vars o).bind rangeElems with
    | none => ⟨[], false⟩
    | some elems =>
      collectChunks (fun (kv : Option Value × Value) =>
        match bindRange declared kv.1 kv.2 vars with
        | none => ⟨[], false⟩
        | some vars2 => exec body kv.2 vars2) elems

/-- Execution of a node list: one chunk per text node and one per printed value. The
fuel bounds the nesting depth of blocks. -/
def execNodes : Nat → List Node → Value → Vars → ExecOut
  | 0, _, _, _ => ⟨[], false⟩
  | fuel + 1, nodes, dot, vars => collectChunks (execNode (execNodes fuel) dot vars) nodes

/-- Nesting depth of a node. -/
def Node.depth : Node → Nat
  | Node.text _ => 0
  | Node.print _ => 0
  | Node.range _ _ body => depthList body + 1
where
  /-- Nesting depth of a node list. -/
  depthList : List Node → Nat
    | [] => 0
    | n :: rest => max n.depth (depthList rest)

/-- The call `tmpl.Execute(w, data)` without its writer: the chunks it hands to the
writer, in order, and whether execution itself succeeded. -/
def templateExecute (tmpl : List Node) (data : Value) : ExecOut :=
  execNodes (Node.depth.depthList tmpl + 1) tmpl data []

/-! ## `path` -/

/-- One step of `path.Clean` on the stack of kept elements (last element first): empty
and `.` elements are dropped, `..` removes the element before it, is dropped at the
root, and is kept at the start of a path that is not rooted. -/
def cleanStep (rooted : Bool) (stack : List (List Char)) (c : List Char) : List (List Char) :=
  if c = [] ∨ c = ['.'] then stack
  else if c = ['.', '.'] then
    match stack with
    | [] => if rooted then [] else [c]
    | top :: below => if top = ['.', '.'] then c :: stack else below
  else c :: stack

/-- Elements joined with slashes. -/
def joinSlash : List (List Char) → List Char
  | [] => []
  | [c] => c
  | c :: d :: rest => c ++ '/' :: joinSlash (d :: rest)

/-- The function `path.Clean` on characters. -/
def cleanChars (p : List Char) : List Char :=
  if p = [] then ['.']
  else
    let rooted := p.head? == some '/'
    let kept := ((splitChar '/' p).foldl (cleanStep rooted) []).reverse
    let out := if rooted then '/' :: joinSlash kept else joinSlash kept
    if out = [] then ['.'] else out

/-- The function `path.Clean`. -/
def pathClean (p : String) : String := String.mk (cleanChars p.data)

/-- The function `path.Join`: empty elements are ignored, the others are joined with
slashes and the result is cleaned; the result is empty when every element is. -/
def pathJoin (elem : List String) : String :=
  let used := (elem.map String.data).filter (fun e => !e.isEmpty)
  if used.isEmpty then "" else String.mk (cleanChars (joinSlash used))

/-- Everything up to and including the last slash. -/
def dirPart (p : List Char) : List Char := (p.reverse.dropWhile (fun c => c != '/')).reverse

/-- The function `path.Dir`. -/
def pathDir (p : String) : String := String.mk (cleanChars (dirPart p.data))

/-! ## `encoding/base64` -/

/-- The alphabet of `base64.URLEncoding`. -/
def encodeURL : List Char :=
  "ABCDEFGHIJKLMNOPQRSTUVWXYZabcdefghijklmnopqrstuvwxyz0123456789-_".data

/-- Character for a six-bit value. -/
def encodeChar (i : Nat) : Char := encodeURL.getD i 'A'

/-- The method `EncodeToString` of `base64.URLEncoding` (padded, padding character `=`). -/
def encodeToString : List Nat → List Char
  | [] => []
  | [a] =>
    let val := a <<< 16
    [encodeChar (val >>> 18 &&& 63), encodeChar (val >>> 12 &&& 63), '=', '=']
  | [a, b] =>
    let val := a <<< 16 ||| b <<< 8
    [encodeChar (val >>> 18 &&& 63), encodeChar (val >>> 12 &&& 63),
     encodeChar (val >>> 6 &&& 63), '=']
  | a :: b :: c :: rest =>
    let val := a <<< 16 ||| b <<< 8 ||| c
    encodeChar (val >>> 18 &&& 63) :: encodeChar (val >>> 12 &&& 63) ::
      encodeChar (val >>> 6 &&& 63) :: encodeChar (val &&& 63) :: encodeToString rest

/-- Six-bit value of a character of the alphabet. -/
def decodeChar (c : Char) : Option Nat :=
  let i := encodeURL.indexOf c
  if i < 64 then some i else none

/-- Decoding of the quanta of a padded base64 text: four characters give three bytes;
the last quantum may end in one or two padding characters and then gives two bytes or
one byte. -/
def decodeQuanta : List Char → Option (List Nat)
  | [] => some []
  | c0 :: c1 :: c2 :: c3 :: rest =>
    if c3 = '=' then
      if rest ≠ [] then none
      else if c2 = '=' then
        match decodeChar c0, decodeChar c1 with
        | some i0, some i1 => some [(i0 <<< 18 ||| i1 <<< 12) >>> 16 &&& 255]
        | _, _ => none
      else
        match decodeChar c0, decodeChar c1, decodeChar c2 with
        | some i0, some i1, some i2 =>
          let val := i0 <<< 18 ||| i1 <<< 12 ||| i2 <<< 6
          some [val >>> 16 &&& 255, val >>> 8 &&& 255]
        | _, _, _ => none
    else
      match decodeChar c0, decodeChar c1, decodeChar c2, decodeChar c3, decodeQuanta rest with
      | some i0, some i1, some i2, some i3, some tail =>
        let val := i0 <<< 18 ||| i1 <<< 12 ||| i2 <<< 6 ||| i3
        some ((val >>> 16 &&& 255) :: (val >>> 8 &&& 255) :: (val &&& 255) :: tail)
      | _, _, _, _, _ => none
  | _ => none

/-- The method `DecodeString` of `base64.URLEncoding`: line breaks are skipped, then
every quantum of four characters gives three bytes, the last one may be padded. -/
def decodeString (s : List Char) : Option (List Nat) :=
  decodeQuanta (s.filter (fun c => c != '\r' && c != '\n'))

/-! ## `createRandomString` -/

/-- Outcome of `rand.Read` on the buffer. Either the call returns, having stored some
bytes at the start of the buffer and reporting an error or not (up to Go 1.23 a failing
source makes `Read` return an error), or the runtime stops the process inside the call
(from Go 1.24 a failing source is fatal and `Read` never returns an error). -/
inductive RandRead where
  | returned : List Nat → Bool → RandRead
  | fatal : RandRead
deriving DecidableEq, Repr

/-- The buffer `randBytes` after a `rand.Read` that stored the given bytes: 32 bytes,
zero where the source stored nothing. -/
def randBytes (stored : List Nat) : List Nat :=
  let kept := (stored.take 32).map (fun b => b % 256)
  kept ++ List.replicate (32 - kept.length) 0

/-- The function `createRandomString`: both results of `rand.Read` are discarded, so
whenever `rand.Read` returns, the buffer is encoded as it is. `none` when the process
was stopped inside `rand.Read`: the function does not return. -/
def createRandomString : RandRead → Option String
  | RandRead.returned stored _ => some (String.mk (encodeToString (randBytes stored)))
  | RandRead.fatal => none

/-! ## `newHaConfig` -/

/-- Steps of the goroutine started by `newHaConfig`. -/
inductive TaskStep where
  | awaitStop : TaskStep
  | logInfo : String → TaskStep
  | removeAll : String → TaskStep
  | sdDone : TaskStep
deriving DecidableEq, Repr

/-- Observable steps of a call of `newHaConfig`, in program order. -/
inductive Event where
  | sdAdd : Nat → Event
  | sdDone : Event
  | tempDir : String → String → Event
  | go : List TaskStep → Event
  | parseTemplate : Event
  | openFile : String → Event
  | randRead : Event
  | write : String → String → Event
  | writeFailed : String → Event
  | close : String → Event
  | logErrorf : String → Event
  | runtimeFatal : Event
deriving DecidableEq, Repr

/-- Ways a call of `newHaConfig` ends without a bundle: the error it returns, named by
the call that failed, or `fatal` when the runtime stopped the process inside
`rand.Read`, in which case the call does not return at all. -/
inductive Error where
  | tempDir : Error
  | parse : Error
  | openFile : String → Error
  | execute : Error
  | write : String → Error
  | fatal : Error
deriving DecidableEq, Repr

/-- Everything a call of `newHaConfig` takes from its surroundings: the processor count
behind the default table, the result of `ioutil.TempDir` (the new directory, `none` for
an error), whether each `os.OpenFile` succeeds, the index of the first chunk of the
main config whose write fails (`none` when every write succeeds), the outcome of
`rand.Read`, whether `WriteString` of the agent config succeeds, and whether the two
`Close` calls succeed. -/
structure Env where
  gomaxprocs : Nat
  tempDir : Option String
  openHAProxy : Bool
  writeHAProxy : Option Nat
  rand : RandRead
  openSPOE : Bool
  writeSPOE : Bool
  closeHAProxy : Bool
  closeSPOE : Bool
deriving DecidableEq, Repr

/-- A call that has ended: the returned pair (or `Error.fatal` for a stopped process)
and the steps performed. -/
structure Run where
  result : Except Error haConfig
  trace : List Event

/-- Body of the goroutine: wait for the stop signal, log, remove the directory; the
deferred `sd.Done()` runs last. -/
def cleanupTask (base : String) : List TaskStep :=
  [TaskStep.awaitStop, TaskStep.logInfo "cleaning config...", TaskStep.removeAll base,
   TaskStep.sdDone]

/-- Steps of a deferred `Close` of the file at `path`. -/
def closeFile (path what : String) (ok : Bool) : List Event :=
  if ok then [Event.close path] else [Event.close path, Event.logErrorf what]

/-- Writes of `tmpl.Execute` to the file at `path`: the chunks in order, up to the
first chunk whose write fails. The second component tells whether all were written. -/
def writeChunks (path : String) (failAt : Option Nat) (chunks : List String) :
    List Event × Bool :=
  match failAt with
  | none => (chunks.map (Event.write path), true)
  | some i =>
    if i < chunks.length then
      ((chunks.take i).map (Event.write path) ++ [Event.writeFailed path], false)
    else (chunks.map (Event.write path), true)

/-- The function `newHaConfig` for a given text of the main template. -/
def newHaConfigFrom (tmplText : String) (baseDir : String) (params : utils.HAProxyParams)
    (env : Env) : Run :=
  let t0 := [Event.sdAdd 1, Event.tempDir baseDir "haproxy-connect-"]
  match env.tempDir with
  | none => ⟨Except.error Error.tempDir, t0 ++ [Event.sdDone]⟩
  | some base =>
    let t1 := t0 ++ [Event.go (cleanupTask base)]
    let cfg : haConfig :=
      { Base := base
        HAProxy := pathJoin [base, "haproxy.conf"]
        SPOE := pathJoin [base, "spoe.conf"]
        SPOESock := pathJoin [base, "spoe.sock"]
        StatsSock := pathJoin [base, "haproxy.sock"]
        DataplaneSock := pathJoin [base, "dataplane.sock"]
        DataplaneTransactionDir := pathJoin [base, "dataplane-transactions"]
        DataplaneUser := ""
        DataplanePass := ""
        LogsSock := pathJoin [base, "logs.sock"] }
    let t2 := t1 ++ [Event.parseTemplate]
    match templateParse tmplText with
    | none => ⟨Except.error Error.parse, t2⟩
    | some tmpl =>
      let t3 := t2 ++ [Event.openFile cfg.HAProxy]
      if !env.openHAProxy then ⟨Except.error (Error.openFile cfg.HAProxy), t3⟩
      else
        let closeCfg := closeFile cfg.HAProxy "error closing config file" env.closeHAProxy
        match createRandomString env.rand with
        | none => ⟨Except.error Error.fatal, t3 ++ [Event.randRead, Event.runtimeFatal]⟩
        | some pass =>
          let cfg2 : haConfig := { cfg with DataplanePass := pass, DataplaneUser := "hapeoxy" }
          let out := templateExecute tmpl (Value.base
            { SocketPath := cfg2.StatsSock
              DataplaneUser := cfg2.DataplaneUser
              DataplanePass := cfg2.DataplanePass
              HAProxyParams := (defaultsHAProxyParams env.gomaxprocs).With params })
          let w := writeChunks cfg2.HAProxy env.writeHAProxy out.chunks
          let t4 := t3 ++ [Event.randRead] ++ w.1
          if !(w.2 && out.ok) then
            ⟨Except.error Error.execute, t4 ++ [Event.sdDone] ++ closeCfg⟩
          else
            let t5 := t4 ++ [Event.openFile cfg2.SPOE]
            if !env.openSPOE then
              ⟨Except.error (Error.openFile cfg2.SPOE), t5 ++ [Event.sdDone] ++ closeCfg⟩
            else
              let closeSpoe :=
                closeFile cfg2.SPOE "error closing spoe config file" env.closeSPOE
              if !env.writeSPOE then
                ⟨Except.error (Error.write cfg2.SPOE),
                  t5 ++ [Event.writeFailed cfg2.SPOE, Event.sdDone] ++ closeSpoe ++ closeCfg⟩
              else
                ⟨Except.ok cfg2,
                  t5 ++ [Event.write cfg2.SPOE spoeConfTmpl] ++ closeSpoe ++ closeCfg⟩

/-- The function `newHaConfig`. -/
def newHaConfig (baseDir : String) (params : utils.HAProxyParams) (env : Env) : Run :=
  newHaConfigFrom baseCfgTmpl baseDir params env

/-- Number of `sd.Done()` calls made by the call itself. -/
def doneInCall (tr : List Event) : Nat := tr.count Event.sdDone

/-- Number of `sd.Done()` calls made by the goroutines the call started, once the stop
signal has fired and they have run to their end. -/
def doneInTasks : List Event → Nat
  | [] => 0
  | Event.go task :: rest => task.count TaskStep.sdDone + doneInTasks rest
  | _ :: rest => doneInTasks rest

/-- Sum of the arguments of the `sd.Add` calls. -/
def addedInCall : List Event → Nat
  | [] => 0
  | Event.sdAdd n :: rest => n + addedInCall rest
  | _ :: rest => addedInCall rest

/-- Goroutines started by the call. -/
def tasksStarted : List Event → List (List TaskStep)
  | [] => []
  | Event.go task :: rest => task :: tasksStarted rest
  | _ :: rest => tasksStarted rest

/-- Steps of materialization: parsing the template, opening, writing and closing a file,
reading the random source. -/
def Event.isMaterialization : Event → Bool
  | Event.parseTemplate => true
  | Event.openFile _ => true
  | Event.randRead => true
  | Event.write _ _ => true
  | Event.writeFailed _ => true
  | Event.close _ => true
  | _ => false

/-- Content of the file at `path` after the steps of a trace: every `os.OpenFile` of
the call truncates, every successful write appends. `none` when the file was not opened. -/
def fileContent (path : String) : List Event → Option String → Option String
  | [], cur => cur
  | Event.openFile p :: rest, cur => fileContent path rest (if p = path then some "" else cur)
  | Event.write p data :: rest, cur =>
    fileContent path rest (if p = path then cur.map (fun s => s ++ data) else cur)
  | _ :: rest, cur => fileContent path rest cur

/-- Lines of a text. -/
def textLines (s : String) : List String := (splitChar '\n' s.data).map String.mk

/-! ## Definitions for the statements -/

/-- The parsed form of `baseCfgTmpl`. -/
def baseCfgNodes : List Node :=
  [Node.text "\nglobal\n\tmaster-worker\n\tstats socket ",
   Node.print (Operand.field ["SocketPath"]),
   Node.text " mode 600 level admin expose-fd listeners",
   Node.range ["k", "vs"] (Operand.field ["HAProxyParams", "Globals"])
     [Node.range ["v"] (Operand.var "vs")
        [Node.text "\n\t", Node.print (Operand.var "k"), Node.text " ",
         Node.print (Operand.var "v")]],
   Node.text "\n\ndefaults",
   Node.range ["k", "vs"] (Operand.field ["HAProxyParams", "Defaults"])
     [Node.range ["v"] (Operand.var "vs")
        [Node.text "\n\t", Node.print (Operand.var "k"), Node.text " ",
         Node.print (Operand.var "v")]],
   Node.text "\n\tcompression algo gzip\n\tcompression type text/css text/html text/javascript application/javascript text/plain text/xml application/json\n\nuserlist controller\n\tuser ",
   Node.print (Operand.field ["DataplaneUser"]),
   Node.text " insecure-password ",
   Node.print (Operand.field ["DataplanePass"]),
   Node.text "\n\n"]

/-- Chunks written for the directives of one group: for every keyword in ascending
order and every argument of it, the line break and tab, the keyword, a blank and the
argument. -/
def directiveChunks (m : GoMap) : List String :=
  (sortByKey m).flatMap (fun e => e.2.flatMap (fun v => ["\n\t", e.1, " ", v]))

/-- Chunks written by the main template. -/
def mainChunks (b : baseParams) : List String :=
  ["\nglobal\n\tmaster-worker\n\tstats socket ", b.SocketPath,
   " mode 600 level admin expose-fd listeners"] ++
  directiveChunks b.HAProxyParams.Globals ++ ["\n\ndefaults"] ++
  directiveChunks b.HAProxyParams.Defaults ++
  ["\n\tcompression algo gzip\n\tcompression type text/css text/html text/javascript application/javascript text/plain text/xml application/json\n\nuserlist controller\n\tuser ",
   b.DataplaneUser, " insecure-password ", b.DataplanePass, "\n\n"]

/-- A text made of lines, each one ended by a line break. -/
def unlines (ls : List String) : String := concat (ls.map (fun l => l ++ "\n"))

/-- Directives of one group as the specification lists them: for each keyword in
ascending key order, one directive `keyword argument` per argument, in the order of
the argument sequence. -/
def directives (m : GoMap) : List String :=
  (sortByKey m).flatMap (fun e => e.2.map (fun v => e.1 ++ " " ++ v))

/-- Lines of the global section: a blank line, the section keyword, worker mode, the
management socket, then one line per global directive. -/
def globalLines (s : String) (P : utils.HAProxyParams) : List String :=
  ["", "global", "\tmaster-worker",
   "\tstats socket " ++ s ++ " mode 600 level admin expose-fd listeners"] ++
  (directives P.Globals).map (fun d => "\t" ++ d)

/-- Lines of the defaults section: a blank line, the section keyword, one line per
defaults directive, then the two fixed compression lines. -/
def defaultsLines (P : utils.HAProxyParams) : List String :=
  ["", "defaults"] ++ (directives P.Defaults).map (fun d => "\t" ++ d) ++
  ["\tcompression algo gzip",
   "\tcompression type text/css text/html text/javascript application/javascript text/plain text/xml application/json"]

/-- Lines of the user list: a blank line, the section keyword, the single user, and the
blank line that ends the document. -/
def userlistLines (u p : String) : List String :=
  ["", "userlist controller", "\tuser " ++ u ++ " insecure-password " ++ p, ""]

/-- Lines of the main config document as the specification describes it: the global
section, the defaults section and the user list. -/
def mainConfigLines (s u p : String) (P : utils.HAProxyParams) : List String :=
  globalLines s P ++ defaultsLines P ++ userlistLines u p

/-- The text that parsing `baseCfgTmpl` and executing it on the given data writes when
every write succeeds; `none` when parsing or execution fails. -/
def renderMain (s u p : String) (P : utils.HAProxyParams) : Option String :=
  match templateParse baseCfgTmpl with
  | none => none
  | some tmpl =>
    let out := templateExecute tmpl (Value.base
      { SocketPath := s, DataplaneUser := u, DataplanePass := p, HAProxyParams := P })
    if out.ok then some (concat out.chunks) else none

/-- A plain file name: not empty, without a slash, and neither `.` nor `..`. -/
def plainName (n : List Char) : Prop := n ≠ [] ∧ '/' ∉ n ∧ n ≠ ['.'] ∧ n ≠ ['.', '.']

/-- What `path.Join` puts in front of a plain name joined to `p`. -/
def joinStem (p : List Char) : List Char :=
  if p = [] then []
  else
    let rooted := p.head? == some '/'
    let kept := ((splitChar '/' p).foldl (cleanStep rooted) []).reverse
    (if rooted then ['/'] else []) ++ (if kept = [] then [] else joinSlash kept ++ ['/'])

/-- Six-bit values of a quantum, as `EncodeToString` computes them. -/
def sextet (val shift : Nat) : Nat := val >>> shift &&& 63

/-- Characters of the URL-safe base64 alphabet with its padding, as the specification
lists them: `A`-`Z`, `a`-`z`, `0`-`9`, `-`, `_` and `=`. -/
def urlSafeChar (c : Char) : Bool :=
  ('A'.toNat ≤ c.toNat && c.toNat ≤ 'Z'.toNat) || ('a'.toNat ≤ c.toNat && c.toNat ≤ 'z'.toNat) ||
    ('0'.toNat ≤ c.toNat && c.toNat ≤ '9'.toNat) || c == '-' || c == '_' || c == '='

/-- The bundle returned for the directory `base` and the password `pass`. -/
def bundle (base pass : String) : haConfig :=
  { Base := base
    HAProxy := pathJoin [base, "haproxy.conf"]
    SPOE := pathJoin [base, "spoe.conf"]
    SPOESock := pathJoin [base, "spoe.sock"]
    StatsSock := pathJoin [base, "haproxy.sock"]
    DataplaneSock := pathJoin [base, "dataplane.sock"]
    DataplaneTransactionDir := pathJoin [base, "dataplane-transactions"]
    DataplaneUser := "hapeoxy"
    DataplanePass := pass
    LogsSock := pathJoin [base, "logs.sock"] }

/-- The data handed to the main template. -/
def templateData (base pass : String) (params : utils.HAProxyParams) (env : Env) :
    baseParams :=
  { SocketPath := pathJoin [base, "haproxy.sock"]
    DataplaneUser := "hapeoxy"
    DataplanePass := pass
    HAProxyParams := (defaultsHAProxyParams env.gomaxprocs).With params }

/-- Steps of a call in which nothing fails. -/
def successTrace (baseDir base pass : String) (params : utils.HAProxyParams) (env : Env) :
    List Event :=
  [Event.sdAdd 1, Event.tempDir baseDir "haproxy-connect-", Event.go (cleanupTask base),
   Event.parseTemplate, Event.openFile (pathJoin [base, "haproxy.conf"]), Event.randRead] ++
  (mainChunks (templateData base pass params env)).map (Event.write (pathJoin [base, "haproxy.conf"])) ++
  [Event.openFile (pathJoin [base, "spoe.conf"]),
   Event.write (pathJoin [base, "spoe.conf"]) spoeConfTmpl] ++
  closeFile (pathJoin [base, "spoe.conf"]) "error closing spoe config file" env.closeSPOE ++
  closeFile (pathJoin [base, "haproxy.conf"]) "error closing config file" env.closeHAProxy

/-- An environment in which nothing fails: four processors, the new directory
`/tmp/haproxy-connect-123456789`, a random source that stores the bytes 0 to 31. -/
def sampleEnv : Env :=
  { gomaxprocs := 4
    tempDir := some "/tmp/haproxy-connect-123456789"
    openHAProxy := true
    writeHAProxy := none
    rand := RandRead.returned (List.range 32) false
    openSPOE := true
    writeSPOE := true
    closeHAProxy := true
    closeSPOE := true }

/-- The bundle returned in `sampleEnv`. -/
def sampleConfig : haConfig :=
  { Base := "/tmp/haproxy-connect-123456789"
    HAProxy := "/tmp/haproxy-connect-123456789/haproxy.conf"
    SPOE := "/tmp/haproxy-connect-123456789/spoe.conf"
    SPOESock := "/tmp/haproxy-connect-123456789/spoe.sock"
    StatsSock := "/tmp/haproxy-connect-123456789/haproxy.sock"
    DataplaneSock := "/tmp/haproxy-connect-123456789/dataplane.sock"
    DataplaneTransactionDir := "/tmp/haproxy-connect-123456789/dataplane-transactions"
    DataplaneUser := "hapeoxy"
    DataplanePass := "AAECAwQFBgcICQoLDA0ODxAREhMUFRYXGBkaGxwdHh8="
    LogsSock := "/tmp/haproxy-connect-123456789/logs.sock" }

/-- A second environment in which nothing fails: another processor count, another
directory, other random bytes, and failing `Close` calls. -/
def otherEnv : Env :=
  { gomaxprocs := 16
    tempDir := some "/var/run/haproxy-connect-987654321"
    openHAProxy := true
    writeHAProxy := none
    rand := RandRead.returned (List.replicate 32 255) false
    openSPOE := true
    writeSPOE := true
    closeHAProxy := false
    closeSPOE := false }

/-- The bundle returned in `otherEnv`. -/
def otherConfig : haConfig :=
  { Base := "/var/run/haproxy-connect-987654321"
    HAProxy := "/var/run/haproxy-connect-987654321/haproxy.conf"
    SPOE := "/var/run/haproxy-connect-987654321/spoe.conf"
    SPOESock := "/var/run/haproxy-connect-987654321/spoe.sock"
    StatsSock := "/var/run/haproxy-connect-987654321/haproxy.sock"
    DataplaneSock := "/var/run/haproxy-connect-987654321/dataplane.sock"
    DataplaneTransactionDir := "/var/run/haproxy-connect-987654321/dataplane-transactions"
    DataplaneUser := "hapeoxy"
    DataplanePass := "__________________________________________8="
    LogsSock := "/var/run/haproxy-connect-987654321/logs.sock" }

/-- The seven file names of the workspace. -/
def workspaceNames : List String :=
  ["haproxy.conf", "spoe.conf", "spoe.sock", "haproxy.sock", "dataplane.sock",
   "dataplane-transactions", "logs.sock"]

/-- The environment `sampleEnv` with directory creation under the base directory
`/tmp//v1`: `os.MkdirTemp` puts the new name after the base directory as it is. -/
def doubleSlashEnv : Env :=
  { sampleEnv with tempDir := some "/tmp//v1/haproxy-connect-123456789" }

/-- The environment `sampleEnv` with directory creation under a base directory whose
name holds a line break. -/
def lineBreakDirEnv : Env :=
  { sampleEnv with tempDir := some "/tmp/a\n\tmaxconn 32000\n/haproxy-connect-123456789" }

/-- The environment `sampleEnv` with the first write of the main config failing. -/
def failingExecuteEnv : Env := { sampleEnv with writeHAProxy := some 0 }

/-- The environment `sampleEnv` with the agent config file failing to open. -/
def failingOpenSpoeEnv : Env := { sampleEnv with openSPOE := false }

/-- The environment `sampleEnv` with the write of the agent config failing. -/
def failingWriteSpoeEnv : Env := { sampleEnv with writeSPOE := false }

/-- The stack of kept elements is well formed: no element is empty, holds a slash or is
`.`, and `..` is kept only at the start of a path that is not rooted. -/
def stackOk (rooted : Bool) : List (List Char) → Prop
  | [] => True
  | c :: below =>
    stackOk rooted below ∧ c ≠ [] ∧ '/' ∉ c ∧ c ≠ ['.'] ∧
      (c = ['.', '.'] → rooted = false ∧ (below = [] ∨ below.head? = some ['.', '.']))

/-! ## Lemmas -/

set_option maxRecDepth 100000 in
theorem templateParse_baseCfgTmpl : templateParse baseCfgTmpl = some baseCfgNodes := by
  rfl

theorem collectChunks_ok {α : Type} (f : α → ExecOut) (g : α → List String)
    (h : ∀ a, f a = ⟨g a, true⟩) : ∀ l : List α, collectChunks f l = ⟨l.flatMap g, true⟩
  | [] => rfl
  | a :: rest => by
    simp [collectChunks, h a, collectChunks_ok f g h rest]

theorem collectChunks_map {α β : Type} (f : β → ExecOut) (h : α → β) :
    ∀ l : List α, collectChunks f (l.map h) = collectChunks (fun a => f (h a)) l
  | [] => rfl
  | a :: rest => by
    simp [collectChunks, collectChunks_map f h rest]

theorem execNodes_succ (fuel : Nat) (nodes : List Node) (dot : Value) (vars : Vars) :
    execNodes (fuel + 1) nodes dot vars
      = collectChunks (execNode (execNodes fuel) dot vars) nodes := rfl

theorem execNodes_directive (fuel : Nat) (k v : String) (dot vsVal : Value) (vars : Vars) :
    execNodes (fuel + 1) [Node.text "\n\t", Node.print (Operand.var "k"), Node.text " ",
        Node.print (Operand.var "v")] dot
        (("v", Value.str v) :: ("vs", vsVal) :: ("k", Value.str k) :: vars)
      = ⟨["\n\t", k, " ", v], true⟩ := by
  simp [execNodes_succ, execNode, collectChunks, evalOperand]

theorem execNodes_keyword (fuel : Nat) (k : String) (vs : List String) (dot : Value)
    (vars : Vars) :
    execNodes (fuel + 2) [Node.range ["v"] (Operand.var "vs")
        [Node.text "\n\t", Node.print (Operand.var "k"), Node.text " ",
         Node.print (Operand.var "v")]] dot
        (("vs", Value.strs vs) :: ("k", Value.str k) :: vars)
      = ⟨vs.flatMap (fun v => ["\n\t", k, " ", v]), true⟩ := by
  have h : ∀ v : String,
      (match bindRange ["v"] (none : Option Value) (Value.str v)
          (("vs", Value.strs vs) :: ("k", Value.str k) :: vars) with
        | none => (⟨[], false⟩ : ExecOut)
        | some vars2 => execNodes (fuel + 1) [Node.text "\n\t", Node.print (Operand.var "k"),
            Node.text " ", Node.print (Operand.var "v")] (Value.str v) vars2)
        = ⟨["\n\t", k, " ", v], true⟩ := by
    intro v
    simp only [bindRange]
    exact execNodes_directive fuel k v _ _ vars
  have h2 := collectChunks_ok _ _ h vs
  rw [execNodes_succ]
  simp only [collectChunks, execNode, evalOperand, List.find?, beq_self_eq_true,
    Option.map_some', Option.bind, rangeElems, collectChunks_map]
  simp [h2]

theorem execNode_group (fuel : Nat) (m : GoMap) (dot : Value) (vars : Vars) (o : Operand)
    (ho : evalOperand dot vars o = some (Value.strMap m)) :
    execNode (execNodes (fuel + 2)) dot vars (Node.range ["k", "vs"] o
        [Node.range ["v"] (Operand.var "vs")
          [Node.text "\n\t", Node.print (Operand.var "k"), Node.text " ",
           Node.print (Operand.var "v")]])
      = ⟨directiveChunks m, true⟩ := by
  have h : ∀ e : String × List String,
      (match bindRange ["k", "vs"] (some (Value.str e.1)) (Value.strs e.2) vars with
        | none => (⟨[], false⟩ : ExecOut)
        | some vars2 => execNodes (fuel + 2) [Node.range ["v"] (Operand.var "vs")
              [Node.text "\n\t", Node.print (Operand.var "k"), Node.text " ",
               Node.print (Operand.var "v")]] (Value.strs e.2) vars2)
        = ⟨e.2.flatMap (fun v => ["\n\t", e.1, " ", v]), true⟩ := by
    intro e
    simp only [bindRange]
    exact execNodes_keyword fuel e.1 e.2 _ vars
  have h2 := collectChunks_ok _ _ h (sortByKey m)
  simp only [execNode, ho, Option.bind, rangeElems, collectChunks_map]
  simpa [directiveChunks] using h2

theorem templateExecute_baseCfgNodes (b : baseParams) :
    templateExecute baseCfgNodes (Value.base b) = ⟨mainChunks b, true⟩ := by
  have hd : Node.depth.depthList baseCfgNodes + 1 = 0 + 2 + 1 := by decide
  have hg : evalOperand (Value.base b) [] (Operand.field ["HAProxyParams", "Globals"])
      = some (Value.strMap b.HAProxyParams.Globals) := by
    simp [evalOperand, Value.field]
  have hdf : evalOperand (Value.base b) [] (Operand.field ["HAProxyParams", "Defaults"])
      = some (Value.strMap b.HAProxyParams.Defaults) := by
    simp [evalOperand, Value.field]
  have h1 := execNode_group 0 _ (Value.base b) [] _ hg
  have h2 := execNode_group 0 _ (Value.base b) [] _ hdf
  unfold templateExecute
  rw [hd, execNodes_succ]
  simp only [baseCfgNodes, collectChunks, h1, h2]
  simp [execNode, evalOperand, Value.field, mainChunks]

theorem concat_append (xs ys : List String) : concat (xs ++ ys) = concat xs ++ concat ys := by
  induction xs with
  | nil => simp [concat]
  | cons x xs ih => simp [concat, ih, String.append_assoc]

theorem concat_flatMap {α : Type} (f : α → List String) (l : List α) :
    concat (l.flatMap f) = concat (l.map (fun a => concat (f a))) := by
  induction l with
  | nil => rfl
  | cons a l ih => simp [List.flatMap_cons, concat_append, concat, ih]

theorem concat_shift (ds : List String) :
    concat (ds.map (fun d => "\n\t" ++ d)) ++ "\n"
      = "\n" ++ concat (ds.map (fun d => "\t" ++ d ++ "\n")) := by
  induction ds with
  | nil => rfl
  | cons d ds ih =>
    simp only [List.map_cons, concat, String.append_assoc, ih]
    rfl

theorem concat_directiveChunks (m : GoMap) :
    concat (directiveChunks m) = concat ((directives m).map (fun d => "\n\t" ++ d)) := by
  unfold directiveChunks directives
  induction sortByKey m with
  | nil => rfl
  | cons e l ih =>
    simp only [List.flatMap_cons, List.map_append, concat_append, ih]
    congr 1
    induction e.2 with
    | nil => rfl
    | cons v vs ihv =>
      rw [List.flatMap_cons, List.map_cons, List.map_cons, concat_append, ihv]
      simp only [concat, String.append_assoc, String.append_empty]

set_option maxRecDepth 100000 in
theorem concat_mainChunks (b : baseParams) :
    concat (mainChunks b)
      = unlines (mainConfigLines b.SocketPath b.DataplaneUser b.DataplanePass b.HAProxyParams) := by
  unfold mainChunks unlines mainConfigLines globalLines defaultsLines userlistLines
  simp only [List.map_append, concat_append, concat_directiveChunks, List.map_map]
  have e : ∀ m : GoMap, (List.map ((fun l => l ++ "\n") ∘ fun d => "\t" ++ d) (directives m))
      = (directives m).map (fun d => "\t" ++ d ++ "\n") := fun m => rfl
  simp only [e, List.map_cons, List.map_nil, concat, String.append_assoc, String.append_empty]
  have sh : ∀ (ds : List String) (r : String),
      "\n" ++ (concat (ds.map (fun d => "\t" ++ (d ++ "\n"))) ++ r)
        = concat (ds.map (fun d => "\n\t" ++ d)) ++ ("\n" ++ r) := by
    intro ds r
    have h := concat_shift ds
    simp only [String.append_assoc] at h
    rw [← String.append_assoc, ← h, String.append_assoc]
  rw [sh, sh]
  generalize concat (List.map (fun d => "\n\t" ++ d) (directives b.HAProxyParams.Globals)) = x
  generalize concat (List.map (fun d => "\n\t" ++ d) (directives b.HAProxyParams.Defaults)) = y
  apply String.ext
  simp [String.data_append]

/-! ### Paths -/

theorem splitChar_ne_nil (sep : Char) : ∀ l : List Char, splitChar sep l ≠ []
  | [] => by simp [splitChar]
  | c :: rest => by
    unfold splitChar
    split
    · simp
    · split <;> simp

theorem splitChar_append (sep : Char) (ys : List Char) :
    ∀ xs : List Char, splitChar sep (xs ++ sep :: ys) = splitChar sep xs ++ splitChar sep ys
  | [] => by
    have h := splitChar_ne_nil sep ys
    cases hy : splitChar sep ys with
    | nil => exact absurd hy h
    | cons w ws => simp [splitChar, hy]
  | c :: xs => by
    have ih := splitChar_append sep ys xs
    have h := splitChar_ne_nil sep xs
    cases hx : splitChar sep xs with
    | nil => exact absurd hx h
    | cons w ws =>
      rw [hx] at ih
      simp only [List.cons_append] at ih ⊢
      by_cases hc : c = sep <;> simp [splitChar, ih, hx, hc]

theorem splitChar_of_not_mem (sep : Char) :
    ∀ l : List Char, sep ∉ l → splitChar sep l = [l]
  | [], _ => rfl
  | c :: rest, h => by
    have hc : c ≠ sep := fun e => h (by simp [e])
    have hr : sep ∉ rest := fun e => h (by simp [e])
    rw [splitChar, splitChar_of_not_mem sep rest hr]
    simp [hc]

theorem joinSlash_append_singleton (n : List Char) :
    ∀ ks : List (List Char),
      joinSlash (ks ++ [n]) = if ks = [] then n else joinSlash ks ++ '/' :: n
  | [] => by simp [joinSlash]
  | [k] => by simp [joinSlash]
  | k :: k2 :: rest => by
    have ih := joinSlash_append_singleton n (k2 :: rest)
    simp only [List.cons_append] at ih ⊢
    rw [joinSlash, ih]
    simp [joinSlash]

theorem cleanStep_plain (rooted : Bool) (stack : List (List Char)) (n : List Char)
    (h : plainName n) : cleanStep rooted stack n = n :: stack := by
  obtain ⟨h1, _, h3, h4⟩ := h
  simp [cleanStep, h1, h3, h4]

theorem cleanChars_append_plain (p n : List Char) (hp : p ≠ []) (hn : plainName n) :
    cleanChars (p ++ '/' :: n) = joinStem p ++ n := by
  have hsplit : splitChar '/' (p ++ '/' :: n) = splitChar '/' p ++ [n] := by
    rw [splitChar_append, splitChar_of_not_mem '/' n hn.2.1]
  have hhead : (p ++ '/' :: n).head? = p.head? := by
    cases p with
    | nil => exact absurd rfl hp
    | cons c cs => rfl
  have hne : p ++ '/' :: n ≠ [] := by simp
  unfold cleanChars joinStem
  simp only [hne, hp, if_false, hsplit, hhead, List.foldl_append, List.foldl_cons,
    List.foldl_nil, cleanStep_plain _ _ n hn, List.reverse_cons, joinSlash_append_singleton]
  have hn1 := hn.1
  generalize (p.head? == some '/') = rooted
  generalize List.foldl (cleanStep rooted) [] (splitChar '/' p) = st
  cases rooted <;> cases st <;> simp [hn1]

theorem cleanChars_plain (n : List Char) (hn : plainName n) : cleanChars n = n := by
  obtain ⟨h1, h2, h3, h4⟩ := hn
  have hhead : (n.head? == some '/') = false := by
    cases n with
    | nil => rfl
    | cons c cs =>
      have : c ≠ '/' := fun e => h2 (by simp [e])
      simp [this]
  unfold cleanChars
  simp only [h1, if_false, hhead, splitChar_of_not_mem '/' n h2, List.foldl_cons, List.foldl_nil,
    cleanStep_plain false [] n ⟨h1, h2, h3, h4⟩]
  simp [joinSlash, h1]

theorem pathJoin_plain (base name : String) (hn : plainName name.data) :
    pathJoin [base, name] = String.mk (joinStem base.data ++ name.data) := by
  have hn1 : name.data ≠ [] := hn.1
  have hne : name.data.isEmpty = false := by
    cases h : name.data with
    | nil => exact absurd h hn1
    | cons c cs => rfl
  unfold pathJoin
  by_cases hb : base.data = []
  · simp [hb, hne, List.filter, joinSlash, cleanChars_plain _ hn, joinStem]
  · have hbe : base.data.isEmpty = false := by
      cases h : base.data with
      | nil => exact absurd h hb
      | cons c cs => rfl
    simp [hbe, hne, List.filter, joinSlash, cleanChars_append_plain _ _ hb hn]

theorem pathJoin_plain_ne (base a b : String) (ha : plainName a.data) (hb : plainName b.data)
    (hab : a ≠ b) : pathJoin [base, a] ≠ pathJoin [base, b] := by
  rw [pathJoin_plain base a ha, pathJoin_plain base b hb]
  intro h
  have h2 : joinStem base.data ++ a.data = joinStem base.data ++ b.data := by
    simpa using congrArg String.data h
  exact hab (String.ext (List.append_cancel_left h2))

theorem dirPart_append_plain (q n : List Char) (hn : '/' ∉ n) :
    dirPart (q ++ '/' :: n) = q ++ ['/'] := by
  unfold dirPart
  have h : (q ++ '/' :: n).reverse = n.reverse ++ '/' :: q.reverse := by simp
  rw [h, List.dropWhile_append_of_pos]
  · simp [List.dropWhile]
  · intro c hc
    have : c ≠ '/' := fun e => hn (by simpa [e] using hc)
    simp [this]

theorem dirPart_plain (n : List Char) (hn : '/' ∉ n) : dirPart n = [] := by
  unfold dirPart
  have h : n.reverse.dropWhile (fun c => c != '/') = [] := by
    rw [List.dropWhile_eq_nil_iff]
    intro c hc
    have : c ≠ '/' := fun e => hn (by simpa [e] using hc)
    simp [this]
  simp [h]

theorem cleanChars_append_slash (p : List Char) (hp : p ≠ []) :
    cleanChars (p ++ ['/']) = cleanChars p := by
  have hsplit : splitChar '/' (p ++ ['/']) = splitChar '/' p ++ [[]] := by
    rw [splitChar_append]
    rfl
  have hhead : (p ++ ['/']).head? = p.head? := by
    cases p with
    | nil => exact absurd rfl hp
    | cons c cs => rfl
  have hne : p ++ ['/'] ≠ [] := by simp
  unfold cleanChars
  simp only [hne, hp, if_false, hsplit, hhead, List.foldl_append, List.foldl_cons,
    List.foldl_nil]
  simp [cleanStep]

theorem pathDir_pathJoin_plain (base name : String) (hc : pathClean base = base)
    (hn : plainName name.data) : pathDir (pathJoin [base, name]) = base := by
  have hc2 : cleanChars base.data = base.data := by
    have := congrArg String.data hc
    simpa [pathClean] using this
  have hb : base.data ≠ [] := by
    intro h
    rw [h] at hc2
    simp [cleanChars] at hc2
  rw [pathJoin_plain base name hn]
  unfold pathDir
  apply String.ext
  simp only []
  have hslash := hn.2.1
  unfold joinStem
  simp only [hb, if_false]
  have hcl := hc2
  unfold cleanChars at hcl
  simp only [hb, if_false] at hcl
  generalize hr : (base.data.head? == some '/') = rooted at hcl ⊢
  generalize hst : (List.foldl (cleanStep rooted) [] (splitChar '/' base.data)).reverse = st
    at hcl ⊢
  cases st with
  | nil =>
    cases rooted with
    | false =>
      simp only [joinSlash, if_true] at hcl
      simp only [List.nil_append, if_true, Bool.false_eq_true, if_false]
      rw [dirPart_plain _ hslash, ← hcl]
      rfl
    | true =>
      simp only [joinSlash, if_true] at hcl
      simp only [if_true, List.append_nil]
      have h := dirPart_append_plain [] name.data hslash
      simp only [List.nil_append] at h
      rw [List.singleton_append, h, ← hcl]
      rfl
  | cons k ks =>
    have hout : (if rooted = true then '/' :: joinSlash (k :: ks) else joinSlash (k :: ks))
        = base.data := by
      by_cases he : (if rooted = true then '/' :: joinSlash (k :: ks) else joinSlash (k :: ks)) = []
      · rw [if_pos he] at hcl
        rw [← hcl] at hr hst
        have hr2 : rooted = false := by rw [← hr]; rfl
        rw [hr2] at hst
        have hnil : (List.foldl (cleanStep false) [] (splitChar '/' ['.'])).reverse = [] := by
          decide
        rw [hnil] at hst
        exact absurd hst (by simp)
      · rw [if_neg he] at hcl
        exact hcl
    have hstem : ((if rooted = true then ['/'] else []) ++
        if k :: ks = [] then [] else joinSlash (k :: ks) ++ ['/']) = base.data ++ ['/'] := by
      rw [← hout]
      cases rooted <;> simp
    rw [hstem]
    have h := dirPart_append_plain base.data name.data hslash
    simp only [List.append_assoc, List.singleton_append] at h ⊢
    rw [h, cleanChars_append_slash _ hb, hc2]

theorem splitChar_no_sep (sep : Char) :
    ∀ (l : List Char), ∀ c ∈ splitChar sep l, sep ∉ c
  | [], c, h => by
    simp only [splitChar, List.mem_singleton] at h
    rw [h]
    exact List.not_mem_nil sep
  | x :: rest, c, h => by
    have ih := splitChar_no_sep sep rest
    have hne := splitChar_ne_nil sep rest
    cases hx : splitChar sep rest with
    | nil => exact absurd hx hne
    | cons w ws =>
      rw [hx] at ih
      by_cases hc : x = sep
      · simp only [splitChar, hx, hc, beq_self_eq_true, if_true, List.mem_cons] at h
        rcases h with h | h | h
        · rw [h]
          exact List.not_mem_nil sep
        · exact ih c (by rw [h]; exact List.mem_cons_self _ _)
        · exact ih c (List.mem_cons_of_mem _ h)
      · have hb : (x == sep) = false := by simpa using hc
        simp only [splitChar, hx, hb, Bool.false_eq_true, if_false, List.mem_cons] at h
        rcases h with h | h
        · rw [h]
          intro hm
          rcases List.mem_cons.mp hm with e | e
          · exact hc e.symm
          · exact ih w (List.mem_cons_self _ _) e
        · exact ih c (List.mem_cons_of_mem _ h)

theorem cleanStep_ok (rooted : Bool) (stack : List (List Char)) (c : List Char)
    (hs : stackOk rooted stack) (hc : '/' ∉ c) : stackOk rooted (cleanStep rooted stack c) := by
  unfold cleanStep
  by_cases h1 : c = [] ∨ c = ['.']
  · simp only [h1, if_true]
    exact hs
  · have hn1 : c ≠ [] := fun e => h1 (Or.inl e)
    have hn2 : c ≠ ['.'] := fun e => h1 (Or.inr e)
    simp only [h1, if_false]
    by_cases h2 : c = ['.', '.']
    · simp only [h2, if_true]
      cases stack with
      | nil =>
        cases rooted with
        | true => exact trivial
        | false =>
          exact ⟨trivial, by decide, by decide, by decide, fun _ => ⟨rfl, Or.inl rfl⟩⟩
      | cons top below =>
        by_cases h3 : top = ['.', '.']
        · simp only [h3, if_true]
          rw [h3] at hs
          exact ⟨hs, by decide, by decide, by decide,
            fun _ => ⟨(hs.2.2.2.2 rfl).1, Or.inr rfl⟩⟩
        · simp only [h3, if_false]
          exact hs.1
    · simp only [h2, if_false]
      exact ⟨hs, hn1, hc, hn2, fun e => absurd e h2⟩

theorem foldl_cleanStep_ok (rooted : Bool) :
    ∀ (comps : List (List Char)) (stack : List (List Char)),
      stackOk rooted stack → (∀ c ∈ comps, '/' ∉ c) →
      stackOk rooted (comps.foldl (cleanStep rooted) stack)
  | [], _, hs, _ => hs
  | c :: rest, stack, hs, hc =>
    foldl_cleanStep_ok rooted rest _
      (cleanStep_ok rooted stack c hs (hc c (List.mem_cons_self _ _)))
      (fun d hd => hc d (List.mem_cons_of_mem _ hd))

theorem foldl_cleanStep_reverse (rooted : Bool) :
    ∀ stack : List (List Char), stackOk rooted stack →
      stack.reverse.foldl (cleanStep rooted) [] = stack
  | [], _ => rfl
  | c :: below, hs => by
    obtain ⟨hb, h1, _, h3, h4⟩ := hs
    rw [List.reverse_cons, List.foldl_append, foldl_cleanStep_reverse rooted below hb]
    simp only [List.foldl_cons, List.foldl_nil]
    unfold cleanStep
    have hn : ¬(c = [] ∨ c = ['.']) := fun e => e.elim h1 h3
    simp only [hn, if_false]
    by_cases h2 : c = ['.', '.']
    · obtain ⟨hr, hbel⟩ := h4 h2
      simp only [h2, if_true]
      rcases hbel with e | e
      · rw [e, hr]
        rfl
      · cases below with
        | nil => simp at e
        | cons top bb =>
          have ht : top = ['.', '.'] := by simpa using e
          simp only [ht, if_true]
    · simp only [h2, if_false]

theorem splitChar_joinSlash :
    ∀ ks : List (List Char), ks ≠ [] → (∀ c ∈ ks, '/' ∉ c) →
      splitChar '/' (joinSlash ks) = ks
  | [], h, _ => absurd rfl h
  | [c], _, hc => by
    rw [joinSlash, splitChar_of_not_mem '/' c (hc c (List.mem_cons_self _ _))]
  | c :: d :: rest, _, hc => by
    rw [joinSlash, splitChar_append,
      splitChar_of_not_mem '/' c (hc c (List.mem_cons_self _ _)),
      splitChar_joinSlash (d :: rest) (by simp) (fun x hx => hc x (List.mem_cons_of_mem _ hx))]
    rfl

theorem stackOk_no_slash (rooted : Bool) :
    ∀ stack : List (List Char), stackOk rooted stack → ∀ c ∈ stack, c ≠ [] ∧ '/' ∉ c
  | [], _, c, h => absurd h (List.not_mem_nil c)
  | x :: below, hs, c, h => by
    rcases List.mem_cons.mp h with e | e
    · rw [e]
      exact ⟨hs.2.1, hs.2.2.1⟩
    · exact stackOk_no_slash rooted below hs.1 c e

theorem joinSlash_head (ks : List (List Char)) (k : List Char) (rest : List (List Char))
    (hk : ks = k :: rest) (x : Char) (xs : List Char) (hx : k = x :: xs) :
    (joinSlash ks).head? = some x := by
  subst hk
  subst hx
  cases rest with
  | nil => rfl
  | cons d r => rfl

theorem cleanChars_idem (p : List Char) : cleanChars (cleanChars p) = cleanChars p := by
  by_cases hp : p = []
  · rw [hp]
    decide
  · have hdot : cleanChars ['.'] = ['.'] := by decide
    have hroot : cleanChars ['/'] = ['/'] := by decide
    have hok := foldl_cleanStep_ok (p.head? == some '/') (splitChar '/' p) [] trivial
      (splitChar_no_sep '/' p)
    have hrev := foldl_cleanStep_reverse _ _ hok
    have hunf : cleanChars p
        = (let out := if (p.head? == some '/') = true then
              '/' :: joinSlash ((splitChar '/' p).foldl (cleanStep (p.head? == some '/')) []).reverse
            else joinSlash ((splitChar '/' p).foldl (cleanStep (p.head? == some '/')) []).reverse
           if out = [] then ['.'] else out) := by
      unfold cleanChars
      simp only [hp, if_false]
    rw [hunf]
    generalize (p.head? == some '/') = rooted at hok hrev
    generalize List.foldl (cleanStep rooted) [] (splitChar '/' p) = st at hok hrev
    have hmem := stackOk_no_slash rooted st hok
    have hmem2 : ∀ c ∈ st.reverse, '/' ∉ c := fun c hc => (hmem c (List.mem_reverse.mp hc)).2
    simp only []
    cases hks : st.reverse with
    | nil =>
      cases rooted with
      | false => exact hdot
      | true => exact hroot
    | cons k rest =>
      have hkne : st.reverse ≠ [] := by rw [hks]; simp
      have hsplit := splitChar_joinSlash st.reverse hkne hmem2
      rw [hks] at hsplit hrev
      have hk1 : k ≠ [] := (hmem k (List.mem_reverse.mp (by rw [hks]; simp))).1
      have hk2 : '/' ∉ k := (hmem k (List.mem_reverse.mp (by rw [hks]; simp))).2
      cases hkx : k with
      | nil => exact absurd hkx hk1
      | cons x xs =>
        have hx : x ≠ '/' := fun e => hk2 (by rw [hkx, e]; exact List.mem_cons_self _ _)
        have hhead := joinSlash_head (k :: rest) k rest rfl x xs hkx
        have hjne : joinSlash (k :: rest) ≠ [] := by
          intro e
          rw [e] at hhead
          simp at hhead
        rw [← hkx]
        cases rooted with
        | false =>
          simp only [Bool.false_eq_true, if_false, hjne]
          unfold cleanChars
          have hr : ((joinSlash (k :: rest)).head? == some '/') = false := by
            rw [hhead]
            simpa using hx
          simp only [hjne, if_false, hr, hsplit, hrev, Bool.false_eq_true]
          rw [hks]
          simp only [hjne, if_false]
        | true =>
          simp only [if_true]
          have hne2 : '/' :: joinSlash (k :: rest) ≠ [] := by simp
          simp only [hne2, if_false]
          unfold cleanChars
          have hsp : splitChar '/' ('/' :: joinSlash (k :: rest)) = [] :: (k :: rest) := by
            have h := splitChar_append '/' (joinSlash (k :: rest)) []
            simp only [List.nil_append] at h
            rw [h, hsplit]
            rfl
          have hfold : List.foldl (cleanStep true) [] ([] :: k :: rest) = st := by
            rw [List.foldl_cons]
            exact hrev
          simp only [hne2, if_false, List.head?_cons, beq_self_eq_true, if_true, hsp, hfold]
          rw [hks]
          simp only [hne2, if_false]

theorem pathClean_idem (p : String) : pathClean (pathClean p) = pathClean p := by
  unfold pathClean
  simp only [cleanChars_idem]

theorem pathDir_pathJoin (base name : String) (hn : plainName name.data) :
    pathDir (pathJoin [base, name]) = pathClean base := by
  have hslash := hn.2.1
  rw [pathJoin_plain base name hn]
  unfold pathDir pathClean
  apply String.ext
  simp only []
  by_cases hb : base.data = []
  · simp only [joinStem, hb, if_true, List.nil_append]
    rw [dirPart_plain _ hslash]
  · have hok := foldl_cleanStep_ok (base.data.head? == some '/') (splitChar '/' base.data) []
      trivial (splitChar_no_sep '/' base.data)
    have hcl : cleanChars base.data
        = (let out := if (base.data.head? == some '/') = true then
              '/' :: joinSlash ((splitChar '/' base.data).foldl
                (cleanStep (base.data.head? == some '/')) []).reverse
            else joinSlash ((splitChar '/' base.data).foldl
                (cleanStep (base.data.head? == some '/')) []).reverse
           if out = [] then ['.'] else out) := by
      unfold cleanChars
      simp only [hb, if_false]
    have hidem := cleanChars_idem base.data
    rw [hcl] at hidem ⊢
    unfold joinStem
    simp only [hb, if_false]
    generalize (base.data.head? == some '/') = rooted at hok hidem ⊢
    generalize List.foldl (cleanStep rooted) [] (splitChar '/' base.data) = st at hok hidem ⊢
    have hmem := stackOk_no_slash rooted st hok
    simp only [] at hidem ⊢
    cases hks : st.reverse with
    | nil =>
      cases rooted with
      | false =>
        simp only [Bool.false_eq_true, if_false, joinSlash, if_true, List.nil_append]
        rw [dirPart_plain _ hslash]
        rfl
      | true =>
        simp only [if_true, joinSlash, List.append_nil]
        have h := dirPart_append_plain [] name.data hslash
        simp only [List.nil_append] at h
        rw [List.singleton_append, h]
        decide
    | cons k rest =>
      rw [hks] at hidem
      have hk1 : k ≠ [] := (hmem k (List.mem_reverse.mp (by rw [hks]; simp))).1
      cases hkx : k with
      | nil => exact absurd hkx hk1
      | cons x xs =>
        have hhead := joinSlash_head (k :: rest) k rest rfl x xs hkx
        have hjne : joinSlash (k :: rest) ≠ [] := by
          intro e
          rw [e] at hhead
          simp at hhead
        rw [← hkx]
        have hcons : (k :: rest = []) = False := by simp
        simp only [hcons, if_false]
        generalize hq : (if rooted = true then '/' :: joinSlash (k :: rest)
          else joinSlash (k :: rest)) = q at hidem ⊢
        have hqne : q ≠ [] := by
          rw [← hq]
          cases rooted with
          | false => simpa using hjne
          | true => simp
        have hstem : ((if rooted = true then ['/'] else []) ++ (joinSlash (k :: rest) ++ ['/']))
            = q ++ ['/'] := by
          rw [← hq]
          cases rooted <;> simp
        simp only [hqne, if_false] at hidem ⊢
        rw [hstem]
        have h := dirPart_append_plain q name.data hslash
        simp only [List.append_assoc, List.singleton_append] at h ⊢
        rw [h, cleanChars_append_slash _ hqne, hidem]

theorem pathJoin_clean (elem : List String) (h : pathJoin elem ≠ "") :
    pathClean (pathJoin elem) = pathJoin elem := by
  unfold pathJoin at h ⊢
  by_cases hu : ((elem.map String.data).filter (fun e => !e.isEmpty)).isEmpty = true
  · simp only [hu, if_true] at h
    exact absurd rfl h
  · simp only [hu, Bool.false_eq_true, if_false]
    unfold pathClean
    simp only [cleanChars_idem]

/-! ### Base64 -/

theorem or_shift (hi lo k : Nat) (h : lo < 2 ^ k) : hi <<< k ||| lo = hi * 2 ^ k + lo := by
  rw [Nat.shiftLeft_eq, Nat.mul_comm hi, ← Nat.mul_add_lt_is_or h]

theorem pack3 (a b c : Nat) (hb : b < 256) (hc : c < 256) :
    a <<< 16 ||| b <<< 8 ||| c = a * 65536 + b * 256 + c := by
  have h1 : a <<< 16 ||| b <<< 8 = (a * 256 + b) <<< 8 := by
    rw [or_shift a (b <<< 8) 16 (by rw [Nat.shiftLeft_eq]; omega), Nat.shiftLeft_eq,
      Nat.shiftLeft_eq]
    omega
  rw [h1, or_shift _ c 8 (by omega)]
  omega

theorem pack4 (i0 i1 i2 i3 : Nat) (h1 : i1 < 64) (h2 : i2 < 64) (h3 : i3 < 64) :
    i0 <<< 18 ||| i1 <<< 12 ||| i2 <<< 6 ||| i3
      = i0 * 262144 + i1 * 4096 + i2 * 64 + i3 := by
  have e1 : i0 <<< 18 ||| i1 <<< 12 = (i0 * 64 + i1) <<< 12 := by
    rw [or_shift i0 (i1 <<< 12) 18 (by rw [Nat.shiftLeft_eq]; omega), Nat.shiftLeft_eq,
      Nat.shiftLeft_eq]
    omega
  have e2 : (i0 * 64 + i1) <<< 12 ||| i2 <<< 6 = ((i0 * 64 + i1) * 64 + i2) <<< 6 := by
    rw [or_shift _ (i2 <<< 6) 12 (by rw [Nat.shiftLeft_eq]; omega), Nat.shiftLeft_eq,
      Nat.shiftLeft_eq]
    omega
  rw [e1, e2, or_shift _ i3 6 (by omega)]
  omega

theorem pack2 (a b : Nat) (hb : b < 256) : a <<< 16 ||| b <<< 8 = a * 65536 + b * 256 := by
  rw [or_shift a (b <<< 8) 16 (by rw [Nat.shiftLeft_eq]; omega), Nat.shiftLeft_eq]
  omega

theorem pack4two (i0 i1 : Nat) (h1 : i1 < 64) :
    i0 <<< 18 ||| i1 <<< 12 = i0 * 262144 + i1 * 4096 := by
  rw [or_shift i0 (i1 <<< 12) 18 (by rw [Nat.shiftLeft_eq]; omega), Nat.shiftLeft_eq]
  omega

theorem pack4three (i0 i1 i2 : Nat) (h1 : i1 < 64) (h2 : i2 < 64) :
    i0 <<< 18 ||| i1 <<< 12 ||| i2 <<< 6 = i0 * 262144 + i1 * 4096 + i2 * 64 := by
  have e1 : i0 <<< 18 ||| i1 <<< 12 = (i0 * 64 + i1) <<< 12 := by
    rw [or_shift i0 (i1 <<< 12) 18 (by rw [Nat.shiftLeft_eq]; omega), Nat.shiftLeft_eq,
      Nat.shiftLeft_eq]
    omega
  rw [e1, or_shift _ (i2 <<< 6) 12 (by rw [Nat.shiftLeft_eq]; omega), Nat.shiftLeft_eq]
  omega

theorem low6 (x : Nat) : x &&& 63 = x % 64 := Nat.and_pow_two_sub_one_eq_mod x 6

theorem low8 (x : Nat) : x &&& 255 = x % 256 := Nat.and_pow_two_sub_one_eq_mod x 8

set_option maxRecDepth 100000 in
theorem decodeChar_encodeChar : ∀ i, i < 64 → decodeChar (encodeChar i) = some i := by
  decide

set_option maxRecDepth 100000 in
theorem encodeChar_ne_pad : ∀ i, i < 64 → encodeChar i ≠ '=' := by
  decide

theorem sextet_lt (val shift : Nat) : sextet val shift < 64 := by
  unfold sextet
  rw [low6]
  omega

theorem sextet_eq (val shift : Nat) : sextet val shift = val / 2 ^ shift % 64 := by
  unfold sextet
  rw [low6, Nat.shiftRight_eq_div_pow]

theorem quantum_three (a b c : Nat) (ha : a < 256) (hb : b < 256) (hc : c < 256) :
    let val := a <<< 16 ||| b <<< 8 ||| c
    let back := sextet val 18 <<< 18 ||| sextet val 12 <<< 12 ||| sextet val 6 <<< 6 |||
      (val &&& 63)
    back >>> 16 &&& 255 = a ∧ back >>> 8 &&& 255 = b ∧ back &&& 255 = c := by
  intro val back
  have hv : val = a * 65536 + b * 256 + c := pack3 a b c hb hc
  have hback : back = val := by
    show sextet val 18 <<< 18 ||| sextet val 12 <<< 12 ||| sextet val 6 <<< 6 ||| (val &&& 63) = val
    rw [pack4 _ _ _ _ (sextet_lt _ _) (sextet_lt _ _) (by rw [low6]; omega), low6]
    simp only [sextet_eq]
    omega
  rw [hback, hv]
  simp only [low8, Nat.shiftRight_eq_div_pow]
  omega

theorem quantum_two (a b : Nat) (ha : a < 256) (hb : b < 256) :
    let val := a <<< 16 ||| b <<< 8
    let back := sextet val 18 <<< 18 ||| sextet val 12 <<< 12 ||| sextet val 6 <<< 6
    back >>> 16 &&& 255 = a ∧ back >>> 8 &&& 255 = b := by
  intro val back
  have hv : val = a * 65536 + b * 256 := pack2 a b hb
  have hback : back = val := by
    show sextet val 18 <<< 18 ||| sextet val 12 <<< 12 ||| sextet val 6 <<< 6 = val
    rw [pack4three _ _ _ (sextet_lt _ _) (sextet_lt _ _)]
    simp only [sextet_eq]
    omega
  rw [hback, hv]
  simp only [low8, Nat.shiftRight_eq_div_pow]
  omega

theorem quantum_one (a : Nat) (ha : a < 256) :
    let val := a <<< 16
    (sextet val 18 <<< 18 ||| sextet val 12 <<< 12) >>> 16 &&& 255 = a := by
  intro val
  have hv : val = a * 65536 := by
    show a <<< 16 = a * 65536
    rw [Nat.shiftLeft_eq]
  rw [pack4two _ _ (sextet_lt _ _)]
  simp only [sextet_eq, low8, Nat.shiftRight_eq_div_pow, hv]
  omega

theorem decodeQuanta_encodeToString :
    ∀ bs : List Nat, (∀ x ∈ bs, x < 256) → decodeQuanta (encodeToString bs) = some bs
  | [], _ => rfl
  | [a], h => by
    have ha : a < 256 := h a (by simp)
    have q := quantum_one a ha
    simp only [sextet] at q
    simp only [encodeToString, decodeQuanta, if_true, ne_eq, not_true_eq_false, if_false]
    rw [decodeChar_encodeChar _ (by rw [low6]; omega),
      decodeChar_encodeChar _ (by rw [low6]; omega)]
    simp only [q]
  | [a, b], h => by
    have ha : a < 256 := h a (by simp)
    have hb : b < 256 := h b (by simp)
    have q := quantum_two a b ha hb
    simp only [sextet] at q
    have hne := encodeChar_ne_pad ((a <<< 16 ||| b <<< 8) >>> 6 &&& 63) (by rw [low6]; omega)
    simp only [encodeToString, decodeQuanta, if_true, ne_eq, not_true_eq_false, if_false, hne]
    rw [decodeChar_encodeChar _ (by rw [low6]; omega),
      decodeChar_encodeChar _ (by rw [low6]; omega),
      decodeChar_encodeChar _ (by rw [low6]; omega)]
    simp only [q.1, q.2]
  | a :: b :: c :: rest, h => by
    have ha : a < 256 := h a (by simp)
    have hb : b < 256 := h b (by simp)
    have hc : c < 256 := h c (by simp)
    have ih := decodeQuanta_encodeToString rest (fun x hx => h x (by simp [hx]))
    have q := quantum_three a b c ha hb hc
    simp only [sextet] at q
    have hne := encodeChar_ne_pad ((a <<< 16 ||| b <<< 8 ||| c) &&& 63) (by rw [low6]; omega)
    simp only [encodeToString, decodeQuanta, hne, if_false]
    rw [decodeChar_encodeChar _ (by rw [low6]; omega),
      decodeChar_encodeChar _ (by rw [low6]; omega),
      decodeChar_encodeChar _ (by rw [low6]; omega),
      decodeChar_encodeChar _ (by rw [low6]; omega), ih]
    simp only [q.1, q.2.1, q.2.2]

set_option maxRecDepth 100000 in
theorem urlSafeChar_encodeChar : ∀ i, i < 64 → urlSafeChar (encodeChar i) = true := by
  decide

set_option maxRecDepth 100000 in
theorem encodeChar_not_break :
    ∀ i, i < 64 → (encodeChar i != '\r' && encodeChar i != '\n') = true := by
  decide

theorem urlSafeChar_masked (x : Nat) : urlSafeChar (encodeChar (x &&& 63)) = true :=
  urlSafeChar_encodeChar _ (by rw [low6]; omega)

theorem not_break_masked (x : Nat) :
    (encodeChar (x &&& 63) != '\r' && encodeChar (x &&& 63) != '\n') = true :=
  encodeChar_not_break _ (by rw [low6]; omega)

theorem encodeToString_urlSafe :
    ∀ bs : List Nat, ∀ c ∈ encodeToString bs, urlSafeChar c = true
  | [], c, h => by simp [encodeToString] at h
  | [a], c, h => by
    simp only [encodeToString, List.mem_cons, List.mem_singleton, List.not_mem_nil,
      or_false] at h
    rcases h with h | h | h | h <;> subst h <;> first | exact urlSafeChar_masked _ | decide
  | [a, b], c, h => by
    simp only [encodeToString, List.mem_cons, List.mem_singleton, List.not_mem_nil,
      or_false] at h
    rcases h with h | h | h | h <;> subst h <;> first | exact urlSafeChar_masked _ | decide
  | a :: b :: d :: rest, c, h => by
    simp only [encodeToString, List.mem_cons] at h
    rcases h with h | h | h | h | h
    · subst h; exact urlSafeChar_masked _
    · subst h; exact urlSafeChar_masked _
    · subst h; exact urlSafeChar_masked _
    · subst h; exact urlSafeChar_masked _
    · exact encodeToString_urlSafe rest c h

theorem encodeToString_no_break :
    ∀ bs : List Nat,
      (encodeToString bs).filter (fun c => c != '\r' && c != '\n') = encodeToString bs
  | [] => rfl
  | [a] => by
    simp only [encodeToString, List.filter, not_break_masked]
    rfl
  | [a, b] => by
    simp only [encodeToString, List.filter, not_break_masked]
    rfl
  | a :: b :: d :: rest => by
    simp only [encodeToString, List.filter, not_break_masked, encodeToString_no_break rest]

theorem encodeToString_length :
    ∀ bs : List Nat, (encodeToString bs).length = 4 * ((bs.length + 2) / 3)
  | [] => rfl
  | [a] => by simp [encodeToString]
  | [a, b] => by simp [encodeToString]
  | a :: b :: d :: rest => by
    simp only [encodeToString, List.length_cons, encodeToString_length rest]
    omega

theorem decodeString_encodeToString (bs : List Nat) (h : ∀ x ∈ bs, x < 256) :
    decodeString (encodeToString bs) = some bs := by
  unfold decodeString
  rw [encodeToString_no_break, decodeQuanta_encodeToString bs h]

theorem randBytes_length (stored : List Nat) : (randBytes stored).length = 32 := by
  unfold randBytes
  simp only [List.length_append, List.length_map, List.length_take, List.length_replicate]
  omega

theorem randBytes_lt (stored : List Nat) : ∀ x ∈ randBytes stored, x < 256 := by
  intro x hx
  unfold randBytes at hx
  simp only [List.mem_append, List.mem_map, List.mem_replicate] at hx
  rcases hx with ⟨y, _, rfl⟩ | ⟨_, rfl⟩
  · exact Nat.mod_lt _ (by decide)
  · decide

theorem randBytes_full (stored : List Nat) (hl : stored.length = 32)
    (hb : ∀ x ∈ stored, x < 256) : randBytes stored = stored := by
  unfold randBytes
  have h1 : stored.take 32 = stored := by
    rw [← hl]
    exact List.take_length stored
  have h2 : stored.map (fun b => b % 256) = stored := by
    conv => rhs; rw [← List.map_id stored]
    apply List.map_congr_left
    intro x hx
    exact Nat.mod_eq_of_lt (hb x hx)
  simp only [h1, h2, hl]
  simp

/-- Whenever `rand.Read` returns, `createRandomString` returns the 44-character
encoding of the 32-byte buffer, whatever was stored and whatever error was reported. -/
theorem createRandomString_returned (stored : List Nat) (err : Bool) :
    ∃ s, createRandomString (RandRead.returned stored err) = some s ∧
      s.length = 44 ∧ (∀ c ∈ s.data, urlSafeChar c = true) ∧
      decodeString s.data = some (randBytes stored) := by
  refine ⟨String.mk (encodeToString (randBytes stored)), rfl, ?_, ?_, ?_⟩
  · rw [String.length, encodeToString_length, randBytes_length]
  · exact encodeToString_urlSafe (randBytes stored)
  · exact decodeString_encodeToString (randBytes stored) (randBytes_lt stored)

theorem createRandomString_some (r : RandRead) (pass : String)
    (h : createRandomString r = some pass) :
    pass.length = 44 ∧ ∀ c ∈ pass.data, urlSafeChar c = true := by
  cases r with
  | fatal => simp [createRandomString] at h
  | returned stored err =>
    obtain ⟨s, hs, h1, h2, _⟩ := createRandomString_returned stored err
    rw [h] at hs
    cases hs
    exact ⟨h1, h2⟩

/-! ### Runs of `newHaConfig` -/

theorem writeChunks_ok (path : String) (failAt : Option Nat) (chunks : List String)
    (h : (writeChunks path failAt chunks).2 = true) :
    (writeChunks path failAt chunks).1 = chunks.map (Event.write path) := by
  unfold writeChunks at h ⊢
  cases failAt with
  | none => rfl
  | some i =>
    by_cases hi : i < chunks.length
    · simp [hi] at h
    · simp [hi]

theorem newHaConfig_ok (baseDir : String) (params : utils.HAProxyParams) (env : Env)
    (cfg : haConfig) (h : (newHaConfig baseDir params env).result = Except.ok cfg) :
    ∃ base pass, env.tempDir = some base ∧ createRandomString env.rand = some pass ∧
      cfg = bundle base pass ∧
      (newHaConfig baseDir params env).trace = successTrace baseDir base pass params env := by
  unfold newHaConfig newHaConfigFrom at h ⊢
  rw [templateParse_baseCfgTmpl] at h ⊢
  cases ht : env.tempDir with
  | none => simp [ht] at h
  | some base =>
    cases hr : createRandomString env.rand with
    | none =>
      simp only [ht, hr] at h
      cases ho : env.openHAProxy <;> simp [ho] at h
    | some pass =>
      refine ⟨base, pass, rfl, rfl, ?_⟩
      simp only [ht, hr, templateExecute_baseCfgNodes] at h ⊢
      cases ho : env.openHAProxy with
      | false => simp [ho] at h
      | true =>
        simp only [ho, Bool.not_true, Bool.false_eq_true, if_false] at h ⊢
        cases hw : (writeChunks (pathJoin [base, "haproxy.conf"]) env.writeHAProxy
            (mainChunks (templateData base pass params env))).2 with
        | false =>
          simp only [templateData] at hw
          simp [hw] at h
        | true =>
          have hw1 := writeChunks_ok _ _ _ hw
          simp only [templateData] at hw hw1
          simp only [hw, hw1, Bool.and_self, Bool.not_true, Bool.false_eq_true, if_false] at h ⊢
          cases hs : env.openSPOE with
          | false => simp [hs] at h
          | true =>
            simp only [hs, Bool.not_true, Bool.false_eq_true, if_false] at h ⊢
            cases hws : env.writeSPOE with
            | false => simp [hws] at h
            | true =>
              simp only [hws, Bool.not_true, Bool.false_eq_true, if_false] at h ⊢
              refine ⟨?_, ?_⟩
              · injection h with h
                rw [← h]
                rfl
              · simp [successTrace, templateData]

theorem fileContent_append (path : String) :
    ∀ (xs ys : List Event) (cur : Option String),
      fileContent path (xs ++ ys) cur = fileContent path ys (fileContent path xs cur)
  | [], _, _ => rfl
  | e :: xs, ys, cur => by
    have ih := fileContent_append path xs ys
    cases e <;> simp only [List.cons_append, fileContent] <;> exact ih _

theorem fileContent_writes (path : String) :
    ∀ (chunks : List String) (acc : String),
      fileContent path (chunks.map (Event.write path)) (some acc) = some (acc ++ concat chunks)
  | [], acc => by simp [fileContent, concat]
  | c :: cs, acc => by
    simp only [List.map_cons, fileContent, if_true, Option.map_some', fileContent_writes path cs,
      concat, String.append_assoc]

theorem fileContent_writes_other (path other : String) (h : other ≠ path) :
    ∀ (chunks : List String) (cur : Option String),
      fileContent path (chunks.map (Event.write other)) cur = cur
  | [], _ => rfl
  | c :: cs, cur => by
    simp only [List.map_cons, fileContent, h, if_false, fileContent_writes_other path other h cs]

theorem fileContent_closeFile (path p what : String) (ok : Bool) (cur : Option String) :
    fileContent path (closeFile p what ok) cur = cur := by
  cases ok <;> rfl

theorem plainName_haproxy_conf : plainName "haproxy.conf".data := by
  unfold plainName
  decide

theorem plainName_spoe_conf : plainName "spoe.conf".data := by
  unfold plainName
  decide

theorem haproxy_ne_spoe (base : String) :
    pathJoin [base, "haproxy.conf"] ≠ pathJoin [base, "spoe.conf"] :=
  pathJoin_plain_ne base _ _ plainName_haproxy_conf plainName_spoe_conf (by decide)

theorem fileContent_successTrace_main (baseDir base pass : String) (params : utils.HAProxyParams)
    (env : Env) :
    fileContent (pathJoin [base, "haproxy.conf"]) (successTrace baseDir base pass params env) none
      = some (concat (mainChunks (templateData base pass params env))) := by
  have hne := haproxy_ne_spoe base
  unfold successTrace
  generalize mainChunks (templateData base pass params env) = chunks
  rw [fileContent_append, fileContent_append, fileContent_append, fileContent_append,
    fileContent_closeFile, fileContent_closeFile]
  simp only [fileContent, if_true, fileContent_writes, Ne.symm hne, if_false]
  simp

theorem fileContent_successTrace_spoe (baseDir base pass : String) (params : utils.HAProxyParams)
    (env : Env) :
    fileContent (pathJoin [base, "spoe.conf"]) (successTrace baseDir base pass params env) none
      = some spoeConfTmpl := by
  have hne := haproxy_ne_spoe base
  unfold successTrace
  generalize mainChunks (templateData base pass params env) = chunks
  rw [fileContent_append, fileContent_append, fileContent_append, fileContent_append,
    fileContent_closeFile, fileContent_closeFile]
  simp only [fileContent, if_true, fileContent_writes_other _ _ hne, hne, if_false,
    Option.map_some']
  simp

/-! ### Key order -/

theorem lexLess_asymm : ∀ a b : List Char, lexLess a b = true → lexLess b a = false
  | [], [], h => by simp [lexLess] at h
  | [], _ :: _, _ => by simp [lexLess]
  | _ :: _, [], h => by simp [lexLess] at h
  | x :: xs, y :: ys, h => by
    simp only [lexLess, Bool.or_eq_true, decide_eq_true_eq, Bool.and_eq_true, beq_iff_eq] at h
    simp only [lexLess, Bool.or_eq_false_iff, decide_eq_false_iff_not, Bool.and_eq_false_imp,
      beq_iff_eq]
    rcases h with h | ⟨h1, h2⟩
    · exact ⟨by omega, fun e => by omega⟩
    · exact ⟨by omega, fun _ => lexLess_asymm xs ys h2⟩

theorem lexLess_total : ∀ a b : List Char, lexLess a b = false → lexLess b a = false → a = b
  | [], [], _, _ => rfl
  | [], _ :: _, h, _ => by simp [lexLess] at h
  | _ :: _, [], _, h => by simp [lexLess] at h
  | x :: xs, y :: ys, h1, h2 => by
    simp only [lexLess, Bool.or_eq_false_iff, decide_eq_false_iff_not, Bool.and_eq_false_imp,
      beq_iff_eq] at h1 h2
    have hxy : x.toNat = y.toNat := by omega
    have hc : x = y := by
      apply Char.ext
      apply UInt32.ext
      exact hxy
    rw [hc, lexLess_total xs ys (h1.2 hxy) (h2.2 hxy.symm)]

theorem lexLess_trans : ∀ a b c : List Char,
    lexLess a b = true → lexLess b c = true → lexLess a c = true
  | _, [], _, h, _ => by cases ‹List Char› <;> simp [lexLess] at h
  | _, _ :: _, [], _, h => by simp [lexLess] at h
  | [], _ :: _, _ :: _, _, _ => by simp [lexLess]
  | x :: xs, y :: ys, z :: zs, h1, h2 => by
    simp only [lexLess, Bool.or_eq_true, decide_eq_true_eq, Bool.and_eq_true, beq_iff_eq]
      at h1 h2 ⊢
    rcases h1 with h1 | ⟨e1, h1⟩ <;> rcases h2 with h2 | ⟨e2, h2⟩
    · exact Or.inl (by omega)
    · exact Or.inl (by omega)
    · exact Or.inl (by omega)
    · exact Or.inr ⟨by omega, lexLess_trans xs ys zs h1 h2⟩

theorem strLessEq_total (a b : String) : strLessEq a b = false → strLessEq b a = true := by
  unfold strLessEq strLess
  intro h
  have h1 : lexLess b.data a.data = true := by simpa using h
  simp [lexLess_asymm _ _ h1]

theorem strLessEq_trans (a b c : String) :
    strLessEq a b = true → strLessEq b c = true → strLessEq a c = true := by
  unfold strLessEq strLess
  intro h1 h2
  have h1 : lexLess b.data a.data = false := by simpa using h1
  have h2 : lexLess c.data b.data = false := by simpa using h2
  suffices lexLess c.data a.data = false by simpa using this
  cases hca : lexLess c.data a.data with
  | false => rfl
  | true =>
    cases hab : lexLess a.data b.data with
    | true =>
      have := lexLess_trans _ _ _ hca hab
      rw [this] at h2
      exact absurd h2 (by simp)
    | false =>
      have e := lexLess_total _ _ hab h1
      rw [e] at hca
      rw [hca] at h2
      exact absurd h2 (by simp)

theorem insertByKey_perm (e : String × List String) :
    ∀ l : GoMap, (insertByKey e l).Perm (e :: l)
  | [] => List.Perm.refl _
  | x :: rest => by
    unfold insertByKey
    split
    · exact List.Perm.refl _
    · exact ((insertByKey_perm e rest).cons x).trans (List.Perm.swap e x rest)

theorem sortByKey_perm : ∀ l : GoMap, (sortByKey l).Perm l
  | [] => List.Perm.refl _
  | e :: rest => (insertByKey_perm e (sortByKey rest)).trans ((sortByKey_perm rest).cons e)

theorem insertByKey_sorted (e : String × List String) :
    ∀ l : GoMap, l.Pairwise (fun a b => strLessEq a.1 b.1 = true) →
      (insertByKey e l).Pairwise (fun a b => strLessEq a.1 b.1 = true)
  | [], _ => by simp [insertByKey]
  | x :: rest, h => by
    unfold insertByKey
    rw [List.pairwise_cons] at h
    split
    · rename_i hle
      refine List.pairwise_cons.mpr ⟨?_, List.pairwise_cons.mpr h⟩
      intro y hy
      rcases List.mem_cons.mp hy with rfl | hy
      · exact hle
      · exact strLessEq_trans _ _ _ hle (h.1 y hy)
    · rename_i hle
      have hxe : strLessEq x.1 e.1 = true := strLessEq_total _ _ (by simpa using hle)
      refine List.pairwise_cons.mpr ⟨?_, insertByKey_sorted e rest h.2⟩
      intro y hy
      rcases List.mem_cons.mp ((insertByKey_perm e rest).subset hy) with rfl | hy
      · exact hxe
      · exact h.1 y hy

theorem sortByKey_sorted :
    ∀ l : GoMap, (sortByKey l).Pairwise (fun a b => strLessEq a.1 b.1 = true)
  | [] => List.Pairwise.nil
  | e :: rest => insertByKey_sorted e _ (sortByKey_sorted rest)

theorem sortByKey_strict (l : GoMap) (h : (l.map Prod.fst).Nodup) :
    (sortByKey l).Pairwise (fun a b => strLess a.1 b.1 = true) := by
  have hs := sortByKey_sorted l
  have hn : ((sortByKey l).map Prod.fst).Nodup :=
    ((sortByKey_perm l).map Prod.fst).nodup_iff.mpr h
  have hn2 : (sortByKey l).Pairwise (fun a b => a.1 ≠ b.1) := by
    rw [List.Nodup, List.pairwise_map] at hn
    exact hn
  refine (hs.and hn2).imp ?_
  intro a b hab
  obtain ⟨hle, hne⟩ := hab
  unfold strLessEq strLess at hle
  unfold strLess
  cases hlt : lexLess a.1.data b.1.data with
  | true => rfl
  | false =>
    have h2 : lexLess b.1.data a.1.data = false := by simpa using hle
    exact absurd (String.ext (lexLess_total _ _ hlt h2)) hne

theorem directives_length (m : GoMap) :
    (directives m).length = (m.map (fun e => e.2.length)).sum := by
  unfold directives
  rw [List.length_flatMap]
  have h := ((sortByKey_perm m).map (fun e => e.2.length)).sum_eq
  have e : (List.length ∘ fun (e : String × List String) =>
      List.map (fun v => e.1 ++ " " ++ v) e.2) = fun e => e.2.length := by
    funext e
    simp
  rw [e, h]

/-! ### The rendered documents -/

theorem renderMain_eq (s u p : String) (P : utils.HAProxyParams) :
    renderMain s u p P = some (unlines (mainConfigLines s u p P)) := by
  unfold renderMain
  rw [templateParse_baseCfgTmpl]
  simp only [templateExecute_baseCfgNodes, if_true]
  rw [concat_mainChunks]

theorem newHaConfig_ok_main (baseDir : String) (params : utils.HAProxyParams) (env : Env)
    (cfg : haConfig) (h : (newHaConfig baseDir params env).result = Except.ok cfg) :
    fileContent cfg.HAProxy (newHaConfig baseDir params env).trace none
      = some (unlines (mainConfigLines cfg.StatsSock cfg.DataplaneUser cfg.DataplanePass
          ((defaultsHAProxyParams env.gomaxprocs).With params))) := by
  obtain ⟨base, pass, _, _, hcfg, htr⟩ := newHaConfig_ok baseDir params env cfg h
  rw [htr, hcfg]
  simp only [bundle]
  rw [fileContent_successTrace_main, concat_mainChunks]
  rfl

theorem newHaConfig_ok_spoe (baseDir : String) (params : utils.HAProxyParams) (env : Env)
    (cfg : haConfig) (h : (newHaConfig baseDir params env).result = Except.ok cfg) :
    fileContent cfg.SPOE (newHaConfig baseDir params env).trace none = some spoeConfTmpl := by
  obtain ⟨base, pass, _, _, hcfg, htr⟩ := newHaConfig_ok baseDir params env cfg h
  rw [htr, hcfg]
  simp only [bundle]
  rw [fileContent_successTrace_spoe]

theorem directives_default_globals (n : Nat) :
    directives (defaultsHAProxyParams n).Globals
      = ["maxconn 32000", "nbthread " ++ toString n, "stats timeout 2m",
         "tune.ssl.default-dh-param 1024", "ulimit-n 65536"] := by
  rfl

theorem directives_default_defaults (n : Nat) :
    directives (defaultsHAProxyParams n).Defaults = ["http-reuse always"] := by
  rfl

theorem with_maxconn (n : Nat) (vs : List String) :
    (defaultsHAProxyParams n).With { Defaults := [], Globals := [("maxconn", vs)] }
      = { Defaults := [("http-reuse", ["always"])]
          Globals := [("stats", ["timeout 2m"]), ("tune.ssl.default-dh-param", ["1024"]),
            ("nbthread", [toString n]), ("ulimit-n", ["65536"]), ("maxconn", vs)] } := by
  rfl

theorem directives_maxconn (n : Nat) (vs : List String) :
    (directives [("stats", ["timeout 2m"]), ("tune.ssl.default-dh-param", ["1024"]),
        ("nbthread", [toString n]), ("ulimit-n", ["65536"]), ("maxconn", vs)]).map
        (fun d => "\t" ++ d)
      = vs.map (fun v => "\tmaxconn " ++ v) ++
        ["\tnbthread " ++ toString n, "\tstats timeout 2m", "\ttune.ssl.default-dh-param 1024",
         "\tulimit-n 65536"] := by
  have hs : sortByKey [("stats", ["timeout 2m"]), ("tune.ssl.default-dh-param", ["1024"]),
        ("nbthread", [toString n]), ("ulimit-n", ["65536"]), ("maxconn", vs)]
      = [("maxconn", vs), ("nbthread", [toString n]), ("stats", ["timeout 2m"]),
         ("tune.ssl.default-dh-param", ["1024"]), ("ulimit-n", ["65536"])] := by
    rfl
  unfold directives
  rw [hs]
  simp only [List.flatMap_cons, List.flatMap_nil, List.map_append, List.map_map, List.map_cons,
    List.map_nil, List.append_nil, List.cons_append, List.nil_append]
  congr 1

theorem tab_maxconn_cancel (v : String) (h : "\tmaxconn " ++ v = "\tmaxconn 32000") :
    v = "32000" := by
  have h2 : "\tmaxconn " ++ v = "\tmaxconn " ++ "32000" := h
  have h3 := congrArg String.data h2
  simp only [String.data_append] at h3
  exact String.ext (List.append_cancel_left h3)

theorem tab_nbthread_ne (t : String) : "\tnbthread " ++ t ≠ "\tmaxconn 32000" := by
  intro h
  have h3 := congrArg String.data h
  simp only [String.data_append] at h3
  have h4 := congrArg (fun l => l.get? 1) h3
  simp at h4

theorem flatMap_insertByKey_empty (k : String) (f : String × List String → List String)
    (hf : f (k, []) = []) :
    ∀ l : GoMap, (insertByKey (k, []) l).flatMap f = l.flatMap f
  | [] => by simp [insertByKey, hf]
  | x :: rest => by
    unfold insertByKey
    split
    · simp [List.flatMap_cons, hf]
    · simp only [List.flatMap_cons, flatMap_insertByKey_empty k f hf rest]

theorem directives_cons_empty (k : String) (m : GoMap) :
    directives ((k, []) :: m) = directives m := by
  unfold directives
  exact flatMap_insertByKey_empty k _ rfl (sortByKey m)

theorem urlSafeChar_excludes (c : Char) (h : urlSafeChar c = true) :
    c ≠ '+' ∧ c ≠ '/' ∧ c ≠ ' ' ∧ c ≠ '\t' ∧ c ≠ '\r' ∧ c ≠ '\n' := by
  refine ⟨?_, ?_, ?_, ?_, ?_, ?_⟩ <;>
  · intro e
    rw [e] at h
    exact absurd h (by decide)

theorem workspaceNames_plain : ∀ n ∈ workspaceNames, plainName n.data := by
  intro n hn
  simp only [workspaceNames, List.mem_cons, List.mem_singleton, List.not_mem_nil,
    or_false] at hn
  rcases hn with rfl | rfl | rfl | rfl | rfl | rfl | rfl <;>
  · unfold plainName
    decide

theorem workspacePaths_nodup (base : String) :
    (workspaceNames.map (fun n => pathJoin [base, n])).Nodup := by
  apply List.Nodup.map_on
  · intro a ha b hb hab
    by_contra hne
    exact pathJoin_plain_ne base a b (workspaceNames_plain a ha) (workspaceNames_plain b hb)
      hne hab
  · decide

theorem tasksStarted_append :
    ∀ xs ys : List Event, tasksStarted (xs ++ ys) = tasksStarted xs ++ tasksStarted ys
  | [], _ => rfl
  | e :: xs, ys => by
    have ih := tasksStarted_append xs ys
    cases e
    all_goals first
      | exact ih
      | exact congrArg (List.cons _) ih

theorem tasksStarted_writes (path : String) :
    ∀ chunks : List String, tasksStarted (chunks.map (Event.write path)) = []
  | [] => rfl
  | c :: cs => by
    simp only [List.map_cons, tasksStarted, tasksStarted_writes path cs]

theorem tasksStarted_writeChunks (path : String) (failAt : Option Nat) (chunks : List String) :
    tasksStarted (writeChunks path failAt chunks).1 = [] := by
  unfold writeChunks
  cases failAt with
  | none => exact tasksStarted_writes path chunks
  | some i =>
    by_cases hi : i < chunks.length
    · simp only [hi, if_true, tasksStarted_append, tasksStarted_writes]
      rfl
    · simp only [hi, if_false]
      exact tasksStarted_writes path chunks

theorem tasksStarted_closeFile (path what : String) (ok : Bool) :
    tasksStarted (closeFile path what ok) = [] := by
  cases ok <;> rfl

theorem addedInCall_append :
    ∀ xs ys : List Event, addedInCall (xs ++ ys) = addedInCall xs + addedInCall ys
  | [], _ => (Nat.zero_add _).symm
  | e :: xs, ys => by
    have ih := addedInCall_append xs ys
    cases e
    all_goals first
      | exact ih
      | (show _ + addedInCall (xs ++ ys) = _ + addedInCall xs + addedInCall ys
         rw [ih, Nat.add_assoc])

theorem doneInTasks_append :
    ∀ xs ys : List Event, doneInTasks (xs ++ ys) = doneInTasks xs + doneInTasks ys
  | [], _ => (Nat.zero_add _).symm
  | e :: xs, ys => by
    have ih := doneInTasks_append xs ys
    cases e
    all_goals first
      | exact ih
      | (show _ + doneInTasks (xs ++ ys) = _ + doneInTasks xs + doneInTasks ys
         rw [ih, Nat.add_assoc])

theorem doneInCall_append (xs ys : List Event) :
    doneInCall (xs ++ ys) = doneInCall xs + doneInCall ys :=
  List.count_append Event.sdDone xs ys

theorem counts_writes (path : String) :
    ∀ chunks : List String,
      addedInCall (chunks.map (Event.write path)) = 0 ∧
      doneInCall (chunks.map (Event.write path)) = 0 ∧
      doneInTasks (chunks.map (Event.write path)) = 0
  | [] => ⟨rfl, rfl, rfl⟩
  | c :: cs => by
    obtain ⟨h1, h2, h3⟩ := counts_writes path cs
    refine ⟨h1, ?_, h3⟩
    unfold doneInCall at h2 ⊢
    rw [List.map_cons, List.count_cons, h2]
    rfl

theorem counts_writeChunks (path : String) (failAt : Option Nat) (chunks : List String) :
    addedInCall (writeChunks path failAt chunks).1 = 0 ∧
    doneInCall (writeChunks path failAt chunks).1 = 0 ∧
    doneInTasks (writeChunks path failAt chunks).1 = 0 := by
  unfold writeChunks
  cases failAt with
  | none => exact counts_writes path chunks
  | some i =>
    by_cases hi : i < chunks.length
    · obtain ⟨h1, h2, h3⟩ := counts_writes path (chunks.take i)
      simp only [hi, if_true, addedInCall_append, doneInCall_append, doneInTasks_append, h1, h2,
        h3]
      exact ⟨rfl, rfl, rfl⟩
    · simp only [hi, if_false]
      exact counts_writes path chunks

theorem counts_closeFile (path what : String) (ok : Bool) :
    addedInCall (closeFile path what ok) = 0 ∧
    doneInCall (closeFile path what ok) = 0 ∧
    doneInTasks (closeFile path what ok) = 0 := by
  cases ok <;> exact ⟨rfl, rfl, rfl⟩

/-- Number of releases of a call, by its outcome: for every text of the main template
and every environment the call adds one obligation; when the call returns, the call and
its cleanup task together release it once if the call succeeds or fails up to the
opening of the main config file, and twice if `tmpl.Execute`, the opening of the agent
config file or the writing of it fails. -/
theorem release_count (tmplText baseDir : String) (params : utils.HAProxyParams) (env : Env) :
    addedInCall (newHaConfigFrom tmplText baseDir params env).trace = 1 ∧
    ((newHaConfigFrom tmplText baseDir params env).result ≠ Except.error Error.fatal →
      doneInCall (newHaConfigFrom tmplText baseDir params env).trace +
          doneInTasks (newHaConfigFrom tmplText baseDir params env).trace
        = match (newHaConfigFrom tmplText baseDir params env).result with
          | Except.error Error.execute => 2
          | Except.error (Error.write _) => 2
          | Except.error (Error.openFile p) =>
            if env.tempDir.map (fun b => pathJoin [b, "spoe.conf"]) = some p then 2 else 1
          | _ => 1) := by
  cases ht : env.tempDir with
  | none =>
    have hrun : newHaConfigFrom tmplText baseDir params env
        = ⟨Except.error Error.tempDir,
           [Event.sdAdd 1, Event.tempDir baseDir "haproxy-connect-", Event.sdDone]⟩ := by
      simp only [newHaConfigFrom, ht]
      rfl
    rw [hrun]
    exact ⟨rfl, fun _ => rfl⟩
  | some base =>
    have hne := haproxy_ne_spoe base
    simp only [newHaConfigFrom, ht]
    cases templateParse tmplText with
    | none => exact ⟨rfl, fun _ => rfl⟩
    | some tmpl =>
      simp only []
      cases env.openHAProxy with
      | false =>
        simp only [Bool.not_false, if_true, Option.map_some', Option.some.injEq, Ne.symm hne,
          if_false]
        exact ⟨rfl, fun _ => rfl⟩
      | true =>
        simp only [Bool.not_true, Bool.false_eq_true, if_false]
        cases createRandomString env.rand with
        | none => exact ⟨rfl, fun hf => absurd rfl hf⟩
        | some pass =>
          simp only []
          obtain ⟨w1, w2, w3⟩ := counts_writeChunks (pathJoin [base, "haproxy.conf"])
            env.writeHAProxy (templateExecute tmpl (Value.base
              { SocketPath := pathJoin [base, "haproxy.sock"]
                DataplaneUser := "hapeoxy"
                DataplanePass := pass
                HAProxyParams := (defaultsHAProxyParams env.gomaxprocs).With params })).chunks
          obtain ⟨c1, c2, c3⟩ := counts_closeFile (pathJoin [base, "haproxy.conf"])
            "error closing config file" env.closeHAProxy
          obtain ⟨d1, d2, d3⟩ := counts_closeFile (pathJoin [base, "spoe.conf"])
            "error closing spoe config file" env.closeSPOE
          split
          · simp only [addedInCall_append, doneInCall_append, doneInTasks_append, w1, w2, w3,
              c1, c2, c3]
            exact ⟨rfl, fun _ => rfl⟩
          · cases env.openSPOE with
            | false =>
              simp only [Bool.not_false, if_true, Option.map_some', addedInCall_append,
                doneInCall_append, doneInTasks_append, w1, w2, w3, c1, c2, c3]
              exact ⟨rfl, fun _ => rfl⟩
            | true =>
              simp only [Bool.not_true, Bool.false_eq_true, if_false]
              cases env.writeSPOE with
              | false =>
                simp only [Bool.not_false, if_true, addedInCall_append, doneInCall_append,
                  doneInTasks_append, w1, w2, w3, c1, c2, c3, d1, d2, d3]
                exact ⟨rfl, fun _ => rfl⟩
              | true =>
                simp only [Bool.not_true, Bool.false_eq_true, if_false, addedInCall_append,
                  doneInCall_append, doneInTasks_append, w1, w2, w3, c1, c2, c3, d1, d2, d3]
                exact ⟨rfl, fun _ => rfl⟩

/-! ### Lines of a written text -/

theorem concat_data_cons (x : String) (xs : List String) :
    (concat (x :: xs)).data = x.data ++ (concat xs).data := by
  simp only [concat, String.data_append]

theorem textLines_unlines :
    ∀ ls : List String, (∀ l ∈ ls, '\n' ∉ l.data) → textLines (unlines ls) = ls ++ [""]
  | [], _ => rfl
  | l :: ls, h => by
    have ih := textLines_unlines ls (fun x hx => h x (List.mem_cons_of_mem _ hx))
    have hl := h l (List.mem_cons_self _ _)
    unfold textLines unlines at ih ⊢
    rw [List.map_cons, concat_data_cons, String.data_append]
    have e : l.data ++ "\n".data ++ (concat (List.map (fun l => l ++ "\n") ls)).data
        = l.data ++ '\n' :: (concat (List.map (fun l => l ++ "\n") ls)).data := by
      simp
    rw [e, splitChar_append, splitChar_of_not_mem '\n' l.data hl, List.map_append, ih]
    rfl

theorem digitChar_ne_newline : ∀ m, m < 10 → Nat.digitChar m ≠ '\n' := by
  decide

theorem toDigitsCore_no_newline :
    ∀ (fuel n : Nat) (ds : List Char), '\n' ∉ ds → '\n' ∉ Nat.toDigitsCore 10 fuel n ds
  | 0, _, ds, h => by simpa [Nat.toDigitsCore] using h
  | fuel + 1, n, ds, h => by
    have hd : '\n' ∉ Nat.digitChar (n % 10) :: ds := by
      intro hm
      rcases List.mem_cons.mp hm with e | e
      · exact digitChar_ne_newline _ (Nat.mod_lt _ (by decide)) e.symm
      · exact h e
    unfold Nat.toDigitsCore
    simp only []
    split
    · exact hd
    · exact toDigitsCore_no_newline fuel _ _ hd

theorem toString_no_newline (n : Nat) : '\n' ∉ (toString n).data := by
  show '\n' ∉ (Nat.repr n).data
  unfold Nat.repr Nat.toDigits
  exact toDigitsCore_no_newline _ _ _ (List.not_mem_nil _)

theorem no_newline_append (a b : String) (ha : '\n' ∉ a.data) (hb : '\n' ∉ b.data) :
    '\n' ∉ (a ++ b).data := by
  rw [String.data_append, List.mem_append]
  exact fun h => h.elim ha hb

theorem directives_no_newline (m : GoMap)
    (hm : ∀ e ∈ m, '\n' ∉ e.1.data ∧ ∀ v ∈ e.2, '\n' ∉ v.data) :
    ∀ d ∈ (directives m).map (fun d => "\t" ++ d), '\n' ∉ d.data := by
  intro d hd
  obtain ⟨d0, hd0, rfl⟩ := List.mem_map.mp hd
  unfold directives at hd0
  obtain ⟨e, he, hde⟩ := List.mem_flatMap.mp hd0
  obtain ⟨v, hv, rfl⟩ := List.mem_map.mp hde
  have hem := hm e ((sortByKey_perm m).subset he)
  exact no_newline_append _ _ (by decide)
    (no_newline_append _ _ (no_newline_append _ _ hem.1 (by decide)) (hem.2 v hv))

theorem createRandomString_no_newline (r : RandRead) (pass : String)
    (h : createRandomString r = some pass) : '\n' ∉ pass.data := by
  intro hm
  exact (urlSafeChar_excludes _ ((createRandomString_some r pass h).2 _ hm)).2.2.2.2.2 rfl

theorem mainConfigLines_no_newline (s u p : String) (P : utils.HAProxyParams)
    (hs : '\n' ∉ s.data) (hu : '\n' ∉ u.data) (hp : '\n' ∉ p.data)
    (hG : ∀ e ∈ P.Globals, '\n' ∉ e.1.data ∧ ∀ v ∈ e.2, '\n' ∉ v.data)
    (hD : ∀ e ∈ P.Defaults, '\n' ∉ e.1.data ∧ ∀ v ∈ e.2, '\n' ∉ v.data) :
    ∀ l ∈ mainConfigLines s u p P, '\n' ∉ l.data := by
  intro l hl
  unfold mainConfigLines globalLines defaultsLines userlistLines at hl
  simp only [List.mem_append, List.mem_cons, List.mem_singleton, List.not_mem_nil,
    or_false] at hl
  have hstats : '\n' ∉ ("\tstats socket " ++ s ++
      " mode 600 level admin expose-fd listeners").data :=
    no_newline_append _ _ (no_newline_append _ _ (by decide) hs) (by decide)
  have huser : '\n' ∉ ("\tuser " ++ u ++ " insecure-password " ++ p).data :=
    no_newline_append _ _
      (no_newline_append _ _ (no_newline_append _ _ (by decide) hu) (by decide)) hp
  rcases hl with ((((h | h | h | h) | h) | (((h | h) | h) | (h | h))) | (h | h | h | h))
  all_goals first
    | exact directives_no_newline _ hG l h
    | exact directives_no_newline _ hD l h
    | (rw [h]; first | exact hstats | exact huser | decide)

theorem tab_stats_ne (t r : String) : "\tstats socket " ++ t ++ r ≠ "\tmaxconn 32000" := by
  intro h
  have h3 := congrArg String.data h
  simp only [String.data_append] at h3
  have h4 := congrArg (fun l => l.get? 1) h3
  simp at h4

theorem tab_user_ne (t r : String) : "\tuser " ++ t ++ r ≠ "\tmaxconn 32000" := by
  intro h
  have h3 := congrArg String.data h
  simp only [String.data_append] at h3
  have h4 := congrArg (fun l => l.get? 1) h3
  simp at h4

/-! ## Claims -/

/-- Claim C8. With an empty override set the main config written by a successful
`newHaConfig` is, line for line: the global section with worker mode, the management
socket and exactly the five default directives `maxconn 32000`, `nbthread n` (`n` the
decimal rendering of the processor count), `stats timeout 2m`,
`tune.ssl.default-dh-param 1024` and `ulimit-n 65536`; the defaults section with
`http-reuse always` and the two compression lines; the user list. `With` of the empty
set leaves the defaults as they are. -/
theorem empty_override_renders_defaults (baseDir : String) (env : Env) (cfg : haConfig)
    (h : (newHaConfig baseDir { Defaults := [], Globals := [] } env).result = Except.ok cfg) :
    (defaultsHAProxyParams env.gomaxprocs).With { Defaults := [], Globals := [] }
        = defaultsHAProxyParams env.gomaxprocs ∧
    fileContent cfg.HAProxy
        (newHaConfig baseDir { Defaults := [], Globals := [] } env).trace none
      = some (unlines
          ["", "global", "\tmaster-worker",
           "\tstats socket " ++ cfg.StatsSock ++ " mode 600 level admin expose-fd listeners",
           "\tmaxconn 32000",
           "\tnbthread " ++ toString env.gomaxprocs,
           "\tstats timeout 2m",
           "\ttune.ssl.default-dh-param 1024",
           "\tulimit-n 65536",
           "", "defaults",
           "\thttp-reuse always",
           "\tcompression algo gzip",
           "\tcompression type text/css text/html text/javascript application/javascript text/plain text/xml application/json",
           "", "userlist controller",
           "\tuser " ++ cfg.DataplaneUser ++ " insecure-password " ++ cfg.DataplanePass,
           ""]) := by
  refine ⟨rfl, ?_⟩
  rw [newHaConfig_ok_main baseDir _ env cfg h]
  have hw : (defaultsHAProxyParams env.gomaxprocs).With { Defaults := [], Globals := [] }
      = defaultsHAProxyParams env.gomaxprocs := rfl
  rw [hw]
  unfold mainConfigLines globalLines defaultsLines userlistLines
  rw [directives_default_globals, directives_default_defaults]
  rfl

set_option maxRecDepth 100000 in
/-- Claim C8, at a concrete run: four processors, directory
`/tmp/haproxy-connect-123456789`. -/
theorem empty_override_renders_defaults_witness :
    (newHaConfig "/tmp" { Defaults := [], Globals := [] } sampleEnv).result
        = Except.ok sampleConfig ∧
    ((defaultsHAProxyParams sampleEnv.gomaxprocs).With { Defaults := [], Globals := [] }
        = defaultsHAProxyParams sampleEnv.gomaxprocs ∧
    fileContent sampleConfig.HAProxy
        (newHaConfig "/tmp" { Defaults := [], Globals := [] } sampleEnv).trace none
      = some (unlines
          ["", "global", "\tmaster-worker",
           "\tstats socket " ++ sampleConfig.StatsSock ++
             " mode 600 level admin expose-fd listeners",
           "\tmaxconn 32000",
           "\tnbthread " ++ toString sampleEnv.gomaxprocs,
           "\tstats timeout 2m",
           "\ttune.ssl.default-dh-param 1024",
           "\tulimit-n 65536",
           "", "defaults",
           "\thttp-reuse always",
           "\tcompression algo gzip",
           "\tcompression type text/css text/html text/javascript application/javascript text/plain text/xml application/json",
           "", "userlist controller",
           "\tuser " ++ sampleConfig.DataplaneUser ++ " insecure-password " ++
             sampleConfig.DataplanePass,
           ""])) :=
  ⟨rfl, empty_override_renders_defaults "/tmp" sampleEnv sampleConfig rfl⟩

/-- Claim C3, as amended. Take the override set with the single global keyword
`maxconn` and an argument list `vs` of which no argument holds a line break, and a
successful `newHaConfig` whose stats socket path holds no line break. Then the lines of
the main config file are: the global section with worker mode, the management socket,
one line `maxconn v` per `v` in `vs`, in order, and the unchanged default directives
`nbthread`, `stats`, `tune.ssl.default-dh-param` and `ulimit-n`; the defaults section;
the user list. If moreover `32000` is not one of the override arguments, no line of the
file is `maxconn 32000`. -/
theorem maxconn_override_replaces_default (baseDir : String) (vs : List String) (env : Env)
    (cfg : haConfig)
    (h : (newHaConfig baseDir { Defaults := [], Globals := [("maxconn", vs)] } env).result
      = Except.ok cfg)
    (hs : '\n' ∉ cfg.StatsSock.data) (hv : ∀ v ∈ vs, '\n' ∉ v.data) :
    ∃ fileLines : List String,
      (fileContent cfg.HAProxy
          (newHaConfig baseDir { Defaults := [], Globals := [("maxconn", vs)] } env).trace
          none).map textLines = some fileLines ∧
      fileLines
        = ["", "global", "\tmaster-worker",
           "\tstats socket " ++ cfg.StatsSock ++ " mode 600 level admin expose-fd listeners"] ++
          vs.map (fun v => "\tmaxconn " ++ v) ++
          ["\tnbthread " ++ toString env.gomaxprocs,
           "\tstats timeout 2m",
           "\ttune.ssl.default-dh-param 1024",
           "\tulimit-n 65536",
           "", "defaults",
           "\thttp-reuse always",
           "\tcompression algo gzip",
           "\tcompression type text/css text/html text/javascript application/javascript text/plain text/xml application/json",
           "", "userlist controller",
           "\tuser " ++ cfg.DataplaneUser ++ " insecure-password " ++ cfg.DataplanePass,
           "", ""] ∧
      ("32000" ∉ vs → "\tmaxconn 32000" ∉ fileLines) := by
  obtain ⟨base, pass, _, hr, hcfg, _⟩ := newHaConfig_ok baseDir _ env cfg h
  have hu : '\n' ∉ cfg.DataplaneUser.data := by
    rw [hcfg]
    show '\n' ∉ "hapeoxy".data
    decide
  have hp : '\n' ∉ cfg.DataplanePass.data := by
    rw [hcfg]
    exact createRandomString_no_newline env.rand pass hr
  have hG : ∀ e ∈ ((defaultsHAProxyParams env.gomaxprocs).With
      { Defaults := [], Globals := [("maxconn", vs)] }).Globals,
      '\n' ∉ e.1.data ∧ ∀ v ∈ e.2, '\n' ∉ v.data := by
    rw [with_maxconn]
    intro e he
    simp only [List.mem_cons, List.mem_singleton, List.not_mem_nil, or_false] at he
    rcases he with rfl | rfl | rfl | rfl | rfl
    · decide
    · decide
    · refine ⟨(by decide : '\n' ∉ "nbthread".data), ?_⟩
      intro v hv2
      rw [List.mem_singleton.mp hv2]
      exact toString_no_newline _
    · decide
    · exact ⟨(by decide : '\n' ∉ "maxconn".data), hv⟩
  have hD : ∀ e ∈ ((defaultsHAProxyParams env.gomaxprocs).With
      { Defaults := [], Globals := [("maxconn", vs)] }).Defaults,
      '\n' ∉ e.1.data ∧ ∀ v ∈ e.2, '\n' ∉ v.data := by
    rw [with_maxconn]
    show ∀ e ∈ [("http-reuse", ["always"])], '\n' ∉ e.1.data ∧ ∀ v ∈ e.2, '\n' ∉ v.data
    decide
  have hno := mainConfigLines_no_newline cfg.StatsSock cfg.DataplaneUser cfg.DataplanePass _
    hs hu hp hG hD
  have hlines : mainConfigLines cfg.StatsSock cfg.DataplaneUser cfg.DataplanePass
      ((defaultsHAProxyParams env.gomaxprocs).With
        { Defaults := [], Globals := [("maxconn", vs)] })
      = ["", "global", "\tmaster-worker",
           "\tstats socket " ++ cfg.StatsSock ++ " mode 600 level admin expose-fd listeners"] ++
          vs.map (fun v => "\tmaxconn " ++ v) ++
          ["\tnbthread " ++ toString env.gomaxprocs,
           "\tstats timeout 2m",
           "\ttune.ssl.default-dh-param 1024",
           "\tulimit-n 65536",
           "", "defaults",
           "\thttp-reuse always",
           "\tcompression algo gzip",
           "\tcompression type text/css text/html text/javascript application/javascript text/plain text/xml application/json",
           "", "userlist controller",
           "\tuser " ++ cfg.DataplaneUser ++ " insecure-password " ++ cfg.DataplanePass,
           ""] := by
    rw [with_maxconn]
    unfold mainConfigLines globalLines defaultsLines userlistLines
    simp only [directives_maxconn]
    have hd : directives [("http-reuse", ["always"])] = ["http-reuse always"] := rfl
    rw [hd]
    simp only [List.map_cons, List.map_nil, List.append_assoc, List.cons_append,
      List.nil_append]
    rfl
  refine ⟨_, ?_, rfl, ?_⟩
  · rw [newHaConfig_ok_main baseDir _ env cfg h, Option.map_some', textLines_unlines _ hno,
      hlines]
    simp only [List.append_assoc, List.cons_append, List.nil_append]
  · intro hv32 hmem
    simp only [List.mem_append, List.mem_cons, List.mem_singleton, List.not_mem_nil,
      or_false, List.mem_map] at hmem
    rcases hmem with ((h1 | h1 | h1 | h1) | ⟨v, hv1, hv2⟩) | h1
    · exact absurd h1 (by decide)
    · exact absurd h1 (by decide)
    · exact absurd h1 (by decide)
    · exact tab_stats_ne _ _ h1.symm
    · exact hv32 (tab_maxconn_cancel v hv2 ▸ hv1)
    · rcases h1 with h1 | h1 | h1 | h1 | h1 | h1 | h1 | h1 | h1 | h1 | h1 | h1 | h1 | h1
      · exact tab_nbthread_ne _ h1.symm
      · exact absurd h1 (by decide)
      · exact absurd h1 (by decide)
      · exact absurd h1 (by decide)
      · exact absurd h1 (by decide)
      · exact absurd h1 (by decide)
      · exact absurd h1 (by decide)
      · exact absurd h1 (by decide)
      · exact absurd h1 (by decide)
      · exact absurd h1 (by decide)
      · exact absurd h1 (by decide)
      · exact tab_user_ne _ _ h1.symm
      · exact absurd h1 (by decide)
      · exact absurd h1 (by decide)

set_option maxRecDepth 100000 in
/-- Claim C3 at the override `maxconn 5000` of scenario B: the file has the line
`maxconn 5000` and no line `maxconn 32000`. -/
theorem maxconn_override_replaces_default_witness :
    (newHaConfig "/tmp" { Defaults := [], Globals := [("maxconn", ["5000"])] } sampleEnv).result
        = Except.ok sampleConfig ∧
    '\n' ∉ sampleConfig.StatsSock.data ∧
    (∀ v ∈ ["5000"], '\n' ∉ v.data) ∧
    ∃ fileLines : List String,
      (fileContent sampleConfig.HAProxy
          (newHaConfig "/tmp" { Defaults := [], Globals := [("maxconn", ["5000"])] }
            sampleEnv).trace none).map textLines = some fileLines ∧
      fileLines
        = ["", "global", "\tmaster-worker",
           "\tstats socket " ++ sampleConfig.StatsSock ++
             " mode 600 level admin expose-fd listeners"] ++
          ["5000"].map (fun v => "\tmaxconn " ++ v) ++
          ["\tnbthread " ++ toString sampleEnv.gomaxprocs,
           "\tstats timeout 2m",
           "\ttune.ssl.default-dh-param 1024",
           "\tulimit-n 65536",
           "", "defaults",
           "\thttp-reuse always",
           "\tcompression algo gzip",
           "\tcompression type text/css text/html text/javascript application/javascript text/plain text/xml application/json",
           "", "userlist controller",
           "\tuser " ++ sampleConfig.DataplaneUser ++ " insecure-password " ++
             sampleConfig.DataplanePass,
           "", ""] ∧
      ("32000" ∉ ["5000"] → "\tmaxconn 32000" ∉ fileLines) :=
  ⟨rfl, by decide, by decide,
    maxconn_override_replaces_default "/tmp" ["5000"] sampleEnv sampleConfig rfl (by decide)
      (by decide)⟩

set_option maxRecDepth 100000 in
/-- Claim C3 as stated fails in three ways, each at a successful call whose main config
file has the line `maxconn 32000`: for the override argument list `["32000"]`; for an
override argument with a line break, `"5000\n\tmaxconn 32000"`, although `32000` is not
one of the arguments; and for the override `["5000"]` of scenario B when the workspace
directory lies under a directory whose name holds a line break. -/
theorem maxconn_override_counterexample :
    ((newHaConfig "/tmp" { Defaults := [], Globals := [("maxconn", ["32000"])] }
        sampleEnv).result = Except.ok sampleConfig ∧
      (fileContent sampleConfig.HAProxy
          (newHaConfig "/tmp" { Defaults := [], Globals := [("maxconn", ["32000"])] }
            sampleEnv).trace none).map textLines
        = some
            ["", "global", "\tmaster-worker",
             "\tstats socket /tmp/haproxy-connect-123456789/haproxy.sock mode 600 level admin expose-fd listeners",
             "\tmaxconn 32000",
             "\tnbthread 4",
             "\tstats timeout 2m",
             "\ttune.ssl.default-dh-param 1024",
             "\tulimit-n 65536",
             "", "defaults",
             "\thttp-reuse always",
             "\tcompression algo gzip",
             "\tcompression type text/css text/html text/javascript application/javascript text/plain text/xml application/json",
             "", "userlist controller",
             "\tuser hapeoxy insecure-password AAECAwQFBgcICQoLDA0ODxAREhMUFRYXGBkaGxwdHh8=",
             "", ""]) ∧
    ((newHaConfig "/tmp"
          { Defaults := [], Globals := [("maxconn", ["5000\n\tmaxconn 32000"])] }
          sampleEnv).result = Except.ok sampleConfig ∧
      "32000" ∉ ["5000\n\tmaxconn 32000"] ∧
      (fileContent sampleConfig.HAProxy
          (newHaConfig "/tmp"
            { Defaults := [], Globals := [("maxconn", ["5000\n\tmaxconn 32000"])] }
            sampleEnv).trace none).map textLines
        = some
            ["", "global", "\tmaster-worker",
             "\tstats socket /tmp/haproxy-connect-123456789/haproxy.sock mode 600 level admin expose-fd listeners",
             "\tmaxconn 5000",
             "\tmaxconn 32000",
             "\tnbthread 4",
             "\tstats timeout 2m",
             "\ttune.ssl.default-dh-param 1024",
             "\tulimit-n 65536",
             "", "defaults",
             "\thttp-reuse always",
             "\tcompression algo gzip",
             "\tcompression type text/css text/html text/javascript application/javascript text/plain text/xml application/json",
             "", "userlist controller",
             "\tuser hapeoxy insecure-password AAECAwQFBgcICQoLDA0ODxAREhMUFRYXGBkaGxwdHh8=",
             "", ""]) ∧
    ((newHaConfig "/tmp/a\n\tmaxconn 32000\n"
          { Defaults := [], Globals := [("maxconn", ["5000"])] } lineBreakDirEnv).result
        = Except.ok (bundle "/tmp/a\n\tmaxconn 32000\n/haproxy-connect-123456789"
            "AAECAwQFBgcICQoLDA0ODxAREhMUFRYXGBkaGxwdHh8=") ∧
      (fileContent
          (bundle "/tmp/a\n\tmaxconn 32000\n/haproxy-connect-123456789"
            "AAECAwQFBgcICQoLDA0ODxAREhMUFRYXGBkaGxwdHh8=").HAProxy
          (newHaConfig "/tmp/a\n\tmaxconn 32000\n"
            { Defaults := [], Globals := [("maxconn", ["5000"])] } lineBreakDirEnv).trace
          none).map textLines
        = some
            ["", "global", "\tmaster-worker",
             "\tstats socket /tmp/a",
             "\tmaxconn 32000",
             "/haproxy-connect-123456789/haproxy.sock mode 600 level admin expose-fd listeners",
             "\tmaxconn 5000",
             "\tnbthread 4",
             "\tstats timeout 2m",
             "\ttune.ssl.default-dh-param 1024",
             "\tulimit-n 65536",
             "", "defaults",
             "\thttp-reuse always",
             "\tcompression algo gzip",
             "\tcompression type text/css text/html text/javascript application/javascript text/plain text/xml application/json",
             "", "userlist controller",
             "\tuser hapeoxy insecure-password AAECAwQFBgcICQoLDA0ODxAREhMUFRYXGBkaGxwdHh8=",
             "", ""]) := by
  refine ⟨⟨rfl, rfl⟩, ⟨rfl, by decide, rfl⟩, ⟨rfl, rfl⟩⟩

/-- Claim C4. For every successful `newHaConfig` call the main config it writes ends
with the user list, whose only user line is `user U insecure-password P` with `U` the
returned `DataplaneUser`, which is the literal `hapeoxy`, and `P` the returned
`DataplanePass`, which is the value of `createRandomString`; both are written as
they are. -/
theorem userlist_matches_bundle (baseDir : String) (params : utils.HAProxyParams) (env : Env)
    (cfg : haConfig) (h : (newHaConfig baseDir params env).result = Except.ok cfg) :
    cfg.DataplaneUser = "hapeoxy" ∧
    createRandomString env.rand = some cfg.DataplanePass ∧
    fileContent cfg.HAProxy (newHaConfig baseDir params env).trace none
      = some (unlines
          (globalLines cfg.StatsSock ((defaultsHAProxyParams env.gomaxprocs).With params) ++
           defaultsLines ((defaultsHAProxyParams env.gomaxprocs).With params) ++
           ["", "userlist controller",
            "\tuser " ++ cfg.DataplaneUser ++ " insecure-password " ++ cfg.DataplanePass,
            ""])) := by
  obtain ⟨base, pass, _, hr, hcfg, _⟩ := newHaConfig_ok baseDir params env cfg h
  refine ⟨by rw [hcfg]; rfl, by rw [hcfg]; exact hr, ?_⟩
  rw [newHaConfig_ok_main baseDir params env cfg h]
  rfl

set_option maxRecDepth 100000 in
/-- Claim C4 at a concrete run, with an override of a defaults keyword. -/
theorem userlist_matches_bundle_witness :
    (newHaConfig "/tmp" { Defaults := [("http-reuse", ["safe"])], Globals := [] }
        sampleEnv).result = Except.ok sampleConfig ∧
    (sampleConfig.DataplaneUser = "hapeoxy" ∧
    createRandomString sampleEnv.rand = some sampleConfig.DataplanePass ∧
    fileContent sampleConfig.HAProxy
        (newHaConfig "/tmp" { Defaults := [("http-reuse", ["safe"])], Globals := [] }
          sampleEnv).trace none
      = some (unlines
          (globalLines sampleConfig.StatsSock
             ((defaultsHAProxyParams sampleEnv.gomaxprocs).With
               { Defaults := [("http-reuse", ["safe"])], Globals := [] }) ++
           defaultsLines
             ((defaultsHAProxyParams sampleEnv.gomaxprocs).With
               { Defaults := [("http-reuse", ["safe"])], Globals := [] }) ++
           ["", "userlist controller",
            "\tuser " ++ sampleConfig.DataplaneUser ++ " insecure-password " ++
              sampleConfig.DataplanePass,
            ""]))) :=
  ⟨rfl, userlist_matches_bundle "/tmp" _ sampleEnv sampleConfig rfl⟩

/-- Claim C9, as amended. For every parameter set `P`, socket path `s` and credentials
`u`, `p` in which no string (path, credential, keyword or argument) holds a line break,
parsing `baseCfgTmpl` and executing it succeeds and the text has exactly these lines:
the global section with `master-worker`, the `stats socket` line and the directives of
`P.Globals`; the defaults section with the directives of `P.Defaults` and the two
compression lines; the user list. The directives of a group are, for each entry in
ascending key order (a reordering of the entries, strictly ascending when the keys are
pairwise different), one line `keyword argument` per argument in sequence order, so
their number is the total number of arguments and a keyword without arguments gives
no line. The main config of a successful `newHaConfig` is this text for the returned
socket path and credentials and the merged parameters. -/
theorem main_config_shape (s u p : String) (P : utils.HAProxyParams)
    (hs : '\n' ∉ s.data) (hu : '\n' ∉ u.data) (hp : '\n' ∉ p.data)
    (hG : ∀ e ∈ P.Globals, '\n' ∉ e.1.data ∧ ∀ v ∈ e.2, '\n' ∉ v.data)
    (hD : ∀ e ∈ P.Defaults, '\n' ∉ e.1.data ∧ ∀ v ∈ e.2, '\n' ∉ v.data) :
    (∃ fileLines : List String,
      fileLines
        = ["", "global", "\tmaster-worker",
           "\tstats socket " ++ s ++ " mode 600 level admin expose-fd listeners"] ++
          (directives P.Globals).map (fun d => "\t" ++ d) ++
          ["", "defaults"] ++
          (directives P.Defaults).map (fun d => "\t" ++ d) ++
          ["\tcompression algo gzip",
           "\tcompression type text/css text/html text/javascript application/javascript text/plain text/xml application/json",
           "", "userlist controller",
           "\tuser " ++ u ++ " insecure-password " ++ p,
           ""] ∧
      renderMain s u p P = some (unlines fileLines) ∧
      (renderMain s u p P).map textLines = some (fileLines ++ [""])) ∧
    (∀ m : GoMap,
      directives m = (sortByKey m).flatMap (fun e => e.2.map (fun v => e.1 ++ " " ++ v)) ∧
      (sortByKey m).Perm m ∧
      (sortByKey m).Pairwise (fun a b => strLessEq a.1 b.1 = true) ∧
      ((m.map Prod.fst).Nodup → (sortByKey m).Pairwise (fun a b => strLess a.1 b.1 = true)) ∧
      (directives m).length = (m.map (fun e => e.2.length)).sum ∧
      ∀ k : String, directives ((k, []) :: m) = directives m) ∧
    (∀ (baseDir : String) (params : utils.HAProxyParams) (env : Env) (cfg : haConfig),
      (newHaConfig baseDir params env).result = Except.ok cfg →
      fileContent cfg.HAProxy (newHaConfig baseDir params env).trace none
        = renderMain cfg.StatsSock cfg.DataplaneUser cfg.DataplanePass
            ((defaultsHAProxyParams env.gomaxprocs).With params)) := by
  refine ⟨?_, ?_, ?_⟩
  · have hno := mainConfigLines_no_newline s u p P hs hu hp hG hD
    have hl : mainConfigLines s u p P
        = ["", "global", "\tmaster-worker",
           "\tstats socket " ++ s ++ " mode 600 level admin expose-fd listeners"] ++
          (directives P.Globals).map (fun d => "\t" ++ d) ++
          ["", "defaults"] ++
          (directives P.Defaults).map (fun d => "\t" ++ d) ++
          ["\tcompression algo gzip",
           "\tcompression type text/css text/html text/javascript application/javascript text/plain text/xml application/json",
           "", "userlist controller",
           "\tuser " ++ u ++ " insecure-password " ++ p,
           ""] := by
      unfold mainConfigLines globalLines defaultsLines userlistLines
      simp only [List.append_assoc, List.cons_append, List.nil_append]
    refine ⟨_, rfl, ?_, ?_⟩
    · rw [renderMain_eq, hl]
    · rw [renderMain_eq, Option.map_some', textLines_unlines _ hno, hl]
  · intro m
    refine ⟨rfl, sortByKey_perm m, sortByKey_sorted m, sortByKey_strict m, directives_length m,
      ?_⟩
    intro k
    exact directives_cons_empty k m
  · intro baseDir params env cfg h
    rw [newHaConfig_ok_main baseDir params env cfg h, renderMain_eq]

set_option maxRecDepth 100000 in
/-- Claim C9 at concrete data: a keyword with two arguments, a keyword that sorts
before it and has none, and one defaults keyword. -/
theorem main_config_shape_witness :
    '\n' ∉ "/run/haproxy.sock".data ∧ '\n' ∉ "hapeoxy".data ∧ '\n' ∉ "secret".data ∧
    (∀ e ∈ [("b", ["1", "2"]), ("a", [])], '\n' ∉ e.1.data ∧ ∀ v ∈ e.2, '\n' ∉ v.data) ∧
    (∀ e ∈ [("http-reuse", ["always"])], '\n' ∉ e.1.data ∧ ∀ v ∈ e.2, '\n' ∉ v.data) ∧
    ((∃ fileLines : List String,
      fileLines
        = ["", "global", "\tmaster-worker",
           "\tstats socket " ++ "/run/haproxy.sock" ++
             " mode 600 level admin expose-fd listeners"] ++
          (directives [("b", ["1", "2"]), ("a", [])]).map (fun d => "\t" ++ d) ++
          ["", "defaults"] ++
          (directives [("http-reuse", ["always"])]).map (fun d => "\t" ++ d) ++
          ["\tcompression algo gzip",
           "\tcompression type text/css text/html text/javascript application/javascript text/plain text/xml application/json",
           "", "userlist controller",
           "\tuser " ++ "hapeoxy" ++ " insecure-password " ++ "secret",
           ""] ∧
      renderMain "/run/haproxy.sock" "hapeoxy" "secret"
          { Defaults := [("http-reuse", ["always"])], Globals := [("b", ["1", "2"]), ("a", [])] }
        = some (unlines fileLines) ∧
      (renderMain "/run/haproxy.sock" "hapeoxy" "secret"
          { Defaults := [("http-reuse", ["always"])],
            Globals := [("b", ["1", "2"]), ("a", [])] }).map textLines
        = some (fileLines ++ [""])) ∧
    (∀ m : GoMap,
      directives m = (sortByKey m).flatMap (fun e => e.2.map (fun v => e.1 ++ " " ++ v)) ∧
      (sortByKey m).Perm m ∧
      (sortByKey m).Pairwise (fun a b => strLessEq a.1 b.1 = true) ∧
      ((m.map Prod.fst).Nodup → (sortByKey m).Pairwise (fun a b => strLess a.1 b.1 = true)) ∧
      (directives m).length = (m.map (fun e => e.2.length)).sum ∧
      ∀ k : String, directives ((k, []) :: m) = directives m) ∧
    (∀ (baseDir : String) (params : utils.HAProxyParams) (env : Env) (cfg : haConfig),
      (newHaConfig baseDir params env).result = Except.ok cfg →
      fileContent cfg.HAProxy (newHaConfig baseDir params env).trace none
        = renderMain cfg.StatsSock cfg.DataplaneUser cfg.DataplanePass
            ((defaultsHAProxyParams env.gomaxprocs).With params))) :=
  ⟨by decide, by decide, by decide, by decide, by decide,
    main_config_shape "/run/haproxy.sock" "hapeoxy" "secret"
      { Defaults := [("http-reuse", ["always"])], Globals := [("b", ["1", "2"]), ("a", [])] }
      (by decide) (by decide) (by decide) (by decide) (by decide)⟩

set_option maxRecDepth 100000 in
/-- Claim C9 as stated fails for an argument with a line break: the global group
`a` with the single argument `"x\n\ty z"` has one argument string, and the rendered
global section has the two directive lines `a x` and `y z`. -/
theorem main_config_shape_counterexample :
    (renderMain "/run/haproxy.sock" "hapeoxy" "secret"
        { Defaults := [], Globals := [("a", ["x\n\ty z"])] }).map textLines
      = some
          ["", "global", "\tmaster-worker",
           "\tstats socket /run/haproxy.sock mode 600 level admin expose-fd listeners",
           "\ta x",
           "\ty z",
           "", "defaults",
           "\tcompression algo gzip",
           "\tcompression type text/css text/html text/javascript application/javascript text/plain text/xml application/json",
           "", "userlist controller",
           "\tuser hapeoxy insecure-password secret",
           "", ""] ∧
    ([("a", ["x\n\ty z"])].map (fun e => e.2.length)).sum = 1 := by
  decide

set_option maxRecDepth 100000 in
/-- Claim C10. For any two successful `newHaConfig` calls, whatever their base
directories, parameter sets and environments, the content of the agent config file is
the literal `spoeConfTmpl` in both, hence the same; the lines of that literal declare
the agent `intentions-agent` with the message `check-intentions`, the arguments
`ip=src cert=ssl_c_der`, the event `on-frontend-tcp-request`, the backend `spoe_back`
and the timeouts `hello 3000ms`, `idle 3000s` and `processing 3000ms`. -/
theorem agent_config_constant (baseDir1 baseDir2 : String)
    (params1 params2 : utils.HAProxyParams) (env1 env2 : Env) (cfg1 cfg2 : haConfig)
    (h1 : (newHaConfig baseDir1 params1 env1).result = Except.ok cfg1)
    (h2 : (newHaConfig baseDir2 params2 env2).result = Except.ok cfg2) :
    fileContent cfg1.SPOE (newHaConfig baseDir1 params1 env1).trace none = some spoeConfTmpl ∧
    fileContent cfg2.SPOE (newHaConfig baseDir2 params2 env2).trace none = some spoeConfTmpl ∧
    fileContent cfg1.SPOE (newHaConfig baseDir1 params1 env1).trace none
      = fileContent cfg2.SPOE (newHaConfig baseDir2 params2 env2).trace none ∧
    textLines spoeConfTmpl
      = ["", "[intentions]", "",
         "spoe-agent intentions-agent",
         "\tmessages check-intentions", "",
         "\toption var-prefix connect", "",
         "\ttimeout hello      3000ms",
         "\ttimeout idle       3000s",
         "\ttimeout processing 3000ms", "",
         "\tuse-backend spoe_back", "",
         "spoe-message check-intentions",
         "\targs ip=src cert=ssl_c_der",
         "\tevent on-frontend-tcp-request", "", ""] := by
  have e1 := newHaConfig_ok_spoe baseDir1 params1 env1 cfg1 h1
  have e2 := newHaConfig_ok_spoe baseDir2 params2 env2 cfg2 h2
  refine ⟨e1, e2, e1.trans e2.symm, ?_⟩
  decide

set_option maxRecDepth 100000 in
/-- Claim C10 at two concrete runs that differ in base directory, parameters,
processor count, random bytes and `Close` results. -/
theorem agent_config_constant_witness :
    (newHaConfig "/tmp" { Defaults := [], Globals := [("maxconn", ["5000"])] } sampleEnv).result
        = Except.ok sampleConfig ∧
    (newHaConfig "/var/run" { Defaults := [("http-reuse", ["never"])], Globals := [] }
        otherEnv).result = Except.ok otherConfig ∧
    (fileContent sampleConfig.SPOE
        (newHaConfig "/tmp" { Defaults := [], Globals := [("maxconn", ["5000"])] }
          sampleEnv).trace none = some spoeConfTmpl ∧
    fileContent otherConfig.SPOE
        (newHaConfig "/var/run" { Defaults := [("http-reuse", ["never"])], Globals := [] }
          otherEnv).trace none = some spoeConfTmpl ∧
    fileContent sampleConfig.SPOE
        (newHaConfig "/tmp" { Defaults := [], Globals := [("maxconn", ["5000"])] }
          sampleEnv).trace none
      = fileContent otherConfig.SPOE
        (newHaConfig "/var/run" { Defaults := [("http-reuse", ["never"])], Globals := [] }
          otherEnv).trace none ∧
    textLines spoeConfTmpl
      = ["", "[intentions]", "",
         "spoe-agent intentions-agent",
         "\tmessages check-intentions", "",
         "\toption var-prefix connect", "",
         "\ttimeout hello      3000ms",
         "\ttimeout idle       3000s",
         "\ttimeout processing 3000ms", "",
         "\tuse-backend spoe_back", "",
         "spoe-message check-intentions",
         "\targs ip=src cert=ssl_c_der",
         "\tevent on-frontend-tcp-request", "", ""]) :=
  ⟨rfl, rfl, agent_config_constant "/tmp" "/var/run" _ _ sampleEnv otherEnv sampleConfig
    otherConfig rfl rfl⟩

/-- Claim C5. For every sequence `b` of 32 bytes stored by the random source,
`createRandomString` returns a string of exactly 44 characters, all of them from the
URL-safe base64 alphabet or the padding character (so none of them is `+`, `/` or
whitespace), whose URL-safe base64 decoding is exactly `b`, 32 bytes. -/
theorem createRandomString_encodes (b : List Nat) (err : Bool) (hl : b.length = 32)
    (hb : ∀ x ∈ b, x < 256) :
    ∃ s : String, createRandomString (RandRead.returned b err) = some s ∧
      s.length = 44 ∧
      (∀ c ∈ s.data,
        urlSafeChar c = true ∧
        c ≠ '+' ∧ c ≠ '/' ∧ c ≠ ' ' ∧ c ≠ '\t' ∧ c ≠ '\r' ∧ c ≠ '\n') ∧
      decodeString s.data = some b ∧
      ((decodeString s.data).map List.length = some 32) := by
  obtain ⟨s, hs, h1, h2, h3⟩ := createRandomString_returned b err
  rw [randBytes_full b hl hb] at h3
  refine ⟨s, hs, h1, ?_, h3, ?_⟩
  · intro c hc
    exact ⟨h2 c hc, urlSafeChar_excludes c (h2 c hc)⟩
  · rw [h3, Option.map_some', hl]

set_option maxRecDepth 100000 in
/-- Claim C5 for the bytes 0 to 31. -/
theorem createRandomString_encodes_witness :
    ∃ s : String, createRandomString (RandRead.returned (List.range 32) false) = some s ∧
      s.length = 44 ∧
      (∀ c ∈ s.data,
        urlSafeChar c = true ∧
        c ≠ '+' ∧ c ≠ '/' ∧ c ≠ ' ' ∧ c ≠ '\t' ∧ c ≠ '\r' ∧ c ≠ '\n') ∧
      decodeString s.data = some (List.range 32) ∧
      ((decodeString s.data).map List.length = some 32) :=
  createRandomString_encodes (List.range 32) false (by decide) (by decide)

set_option maxRecDepth 100000 in
/-- Claim C2 does not hold of the code where `rand.Read` can return an error (Go up to
1.23). When the source reports an error and stores nothing, `createRandomString`
returns the encoding of the all-zero buffer, the very string it returns for 32 zero
bytes read without error; when it stores two bytes only, the result encodes those two
bytes followed by thirty zeros. Where a failing source stops the process instead (from
Go 1.24), the function returns nothing. -/
theorem createRandomString_failed_read :
    createRandomString (RandRead.returned [] true)
      = some "AAAAAAAAAAAAAAAAAAAAAAAAAAAAAAAAAAAAAAAAAAA=" ∧
    createRandomString (RandRead.returned [] true)
      = createRandomString (RandRead.returned (List.replicate 32 0) false) ∧
    (createRandomString (RandRead.returned [] true)).bind (fun s => decodeString s.data)
      = some (List.replicate 32 0) ∧
    (createRandomString (RandRead.returned [7, 9] true)).bind (fun s => decodeString s.data)
      = some ([7, 9] ++ List.replicate 30 0) ∧
    createRandomString RandRead.fatal = none := by
  decide

/-- Claim C6, as amended. A successful `newHaConfig` returns a bundle whose `Base` is
the directory that directory creation returned and whose seven other paths are `Base`
joined (`path.Join`) with `haproxy.conf`, `spoe.conf`, `spoe.sock`, `haproxy.sock`,
`dataplane.sock`, `dataplane-transactions` and `logs.sock`; the seven paths are pairwise
different and the parent directory of each is the cleaned form of `Base`, which is
`Base` itself when `Base` is a cleaned path. -/
theorem bundle_paths (baseDir : String) (params : utils.HAProxyParams) (env : Env)
    (cfg : haConfig) (h : (newHaConfig baseDir params env).result = Except.ok cfg) :
    env.tempDir = some cfg.Base ∧
    cfg.HAProxy = pathJoin [cfg.Base, "haproxy.conf"] ∧
    cfg.SPOE = pathJoin [cfg.Base, "spoe.conf"] ∧
    cfg.SPOESock = pathJoin [cfg.Base, "spoe.sock"] ∧
    cfg.StatsSock = pathJoin [cfg.Base, "haproxy.sock"] ∧
    cfg.DataplaneSock = pathJoin [cfg.Base, "dataplane.sock"] ∧
    cfg.DataplaneTransactionDir = pathJoin [cfg.Base, "dataplane-transactions"] ∧
    cfg.LogsSock = pathJoin [cfg.Base, "logs.sock"] ∧
    [cfg.HAProxy, cfg.SPOE, cfg.SPOESock, cfg.StatsSock, cfg.DataplaneSock,
      cfg.DataplaneTransactionDir, cfg.LogsSock].Nodup ∧
    (∀ p ∈ [cfg.HAProxy, cfg.SPOE, cfg.SPOESock, cfg.StatsSock, cfg.DataplaneSock,
      cfg.DataplaneTransactionDir, cfg.LogsSock], pathDir p = pathClean cfg.Base) ∧
    (pathClean cfg.Base = cfg.Base →
      ∀ p ∈ [cfg.HAProxy, cfg.SPOE, cfg.SPOESock, cfg.StatsSock, cfg.DataplaneSock,
        cfg.DataplaneTransactionDir, cfg.LogsSock], pathDir p = cfg.Base) := by
  obtain ⟨base, pass, hb, _, hcfg, _⟩ := newHaConfig_ok baseDir params env cfg h
  subst hcfg
  have hdir : ∀ p ∈ [(bundle base pass).HAProxy, (bundle base pass).SPOE,
      (bundle base pass).SPOESock, (bundle base pass).StatsSock,
      (bundle base pass).DataplaneSock, (bundle base pass).DataplaneTransactionDir,
      (bundle base pass).LogsSock], pathDir p = pathClean (bundle base pass).Base := by
    intro p hp
    have hp2 : p ∈ workspaceNames.map (fun n => pathJoin [base, n]) := hp
    obtain ⟨n, hn, rfl⟩ := List.mem_map.mp hp2
    exact pathDir_pathJoin base n (workspaceNames_plain n hn)
  refine ⟨hb, rfl, rfl, rfl, rfl, rfl, rfl, rfl, workspacePaths_nodup base, hdir, ?_⟩
  intro hc p hp
  rw [hdir p hp, hc]

set_option maxRecDepth 100000 in
/-- Claim C6 at a concrete run in the directory `/tmp/haproxy-connect-123456789`. -/
theorem bundle_paths_witness :
    (newHaConfig "/tmp" { Defaults := [], Globals := [] } sampleEnv).result
        = Except.ok sampleConfig ∧
    (sampleEnv.tempDir = some sampleConfig.Base ∧
    sampleConfig.HAProxy = pathJoin [sampleConfig.Base, "haproxy.conf"] ∧
    sampleConfig.SPOE = pathJoin [sampleConfig.Base, "spoe.conf"] ∧
    sampleConfig.SPOESock = pathJoin [sampleConfig.Base, "spoe.sock"] ∧
    sampleConfig.StatsSock = pathJoin [sampleConfig.Base, "haproxy.sock"] ∧
    sampleConfig.DataplaneSock = pathJoin [sampleConfig.Base, "dataplane.sock"] ∧
    sampleConfig.DataplaneTransactionDir
      = pathJoin [sampleConfig.Base, "dataplane-transactions"] ∧
    sampleConfig.LogsSock = pathJoin [sampleConfig.Base, "logs.sock"] ∧
    [sampleConfig.HAProxy, sampleConfig.SPOE, sampleConfig.SPOESock, sampleConfig.StatsSock,
      sampleConfig.DataplaneSock, sampleConfig.DataplaneTransactionDir,
      sampleConfig.LogsSock].Nodup ∧
    (∀ p ∈ [sampleConfig.HAProxy, sampleConfig.SPOE, sampleConfig.SPOESock,
      sampleConfig.StatsSock, sampleConfig.DataplaneSock,
      sampleConfig.DataplaneTransactionDir, sampleConfig.LogsSock],
      pathDir p = pathClean sampleConfig.Base) ∧
    (pathClean sampleConfig.Base = sampleConfig.Base →
      ∀ p ∈ [sampleConfig.HAProxy, sampleConfig.SPOE, sampleConfig.SPOESock,
        sampleConfig.StatsSock, sampleConfig.DataplaneSock,
        sampleConfig.DataplaneTransactionDir, sampleConfig.LogsSock],
        pathDir p = sampleConfig.Base)) :=
  ⟨rfl, bundle_paths "/tmp" { Defaults := [], Globals := [] } sampleEnv sampleConfig rfl⟩

set_option maxRecDepth 100000 in
/-- Claim C6 as stated fails for a directory that is not a cleaned path. Directory
creation under the base directory `/tmp//v1` returns
`/tmp//v1/haproxy-connect-123456789`; the call succeeds, `Base` keeps that value, the
main config path is `/tmp/v1/haproxy-connect-123456789/haproxy.conf`, and its parent
directory `/tmp/v1/haproxy-connect-123456789` is not `Base`. -/
theorem bundle_paths_counterexample :
    (newHaConfig "/tmp//v1" { Defaults := [], Globals := [] } doubleSlashEnv).result
      = Except.ok (bundle "/tmp//v1/haproxy-connect-123456789"
          "AAECAwQFBgcICQoLDA0ODxAREhMUFRYXGBkaGxwdHh8=") ∧
    (bundle "/tmp//v1/haproxy-connect-123456789"
        "AAECAwQFBgcICQoLDA0ODxAREhMUFRYXGBkaGxwdHh8=").Base
      = "/tmp//v1/haproxy-connect-123456789" ∧
    (bundle "/tmp//v1/haproxy-connect-123456789"
        "AAECAwQFBgcICQoLDA0ODxAREhMUFRYXGBkaGxwdHh8=").HAProxy
      = "/tmp/v1/haproxy-connect-123456789/haproxy.conf" ∧
    pathDir (bundle "/tmp//v1/haproxy-connect-123456789"
        "AAECAwQFBgcICQoLDA0ODxAREhMUFRYXGBkaGxwdHh8=").HAProxy
      = "/tmp/v1/haproxy-connect-123456789" ∧
    pathDir (bundle "/tmp//v1/haproxy-connect-123456789"
        "AAECAwQFBgcICQoLDA0ODxAREhMUFRYXGBkaGxwdHh8=").HAProxy
      ≠ (bundle "/tmp//v1/haproxy-connect-123456789"
        "AAECAwQFBgcICQoLDA0ODxAREhMUFRYXGBkaGxwdHh8=").Base := by
  refine ⟨rfl, rfl, ?_, ?_, ?_⟩ <;> decide

/-- Claim C7. Whatever the text of the main template and whatever fails later: when
directory creation succeeds with `base`, the call starts with `sd.Add(1)`, the
directory creation and the start of the cleanup task, only then does materialization
begin (with the template parse), and that task is the only one started; once the stop
signal fires the task logs, removes `base` recursively and then releases its
obligation. When directory creation fails, the call consists of `sd.Add(1)`, the
failed creation and `sd.Done()`: no task is started, no file is opened, and the error
of the creation is returned. -/
theorem cleanup_task_started_first (tmplText baseDir : String) (params : utils.HAProxyParams)
    (env : Env) :
    match env.tempDir with
    | some base =>
      (∃ rest : List Event,
        (newHaConfigFrom tmplText baseDir params env).trace
          = [Event.sdAdd 1, Event.tempDir baseDir "haproxy-connect-",
             Event.go (cleanupTask base), Event.parseTemplate] ++ rest ∧
        tasksStarted rest = []) ∧
      tasksStarted (newHaConfigFrom tmplText baseDir params env).trace = [cleanupTask base] ∧
      cleanupTask base
        = [TaskStep.awaitStop, TaskStep.logInfo "cleaning config...", TaskStep.removeAll base,
           TaskStep.sdDone]
    | none =>
      (newHaConfigFrom tmplText baseDir params env).trace
        = [Event.sdAdd 1, Event.tempDir baseDir "haproxy-connect-", Event.sdDone] ∧
      tasksStarted (newHaConfigFrom tmplText baseDir params env).trace = [] ∧
      (∀ e ∈ (newHaConfigFrom tmplText baseDir params env).trace,
        e.isMaterialization = false) ∧
      (newHaConfigFrom tmplText baseDir params env).result = Except.error Error.tempDir := by
  cases ht : env.tempDir with
  | none =>
    have hrun : newHaConfigFrom tmplText baseDir params env
        = ⟨Except.error Error.tempDir,
           [Event.sdAdd 1, Event.tempDir baseDir "haproxy-connect-", Event.sdDone]⟩ := by
      simp only [newHaConfigFrom, ht]
      rfl
    rw [hrun]
    refine ⟨rfl, rfl, ?_, rfl⟩
    intro e he
    simp only [List.mem_cons, List.mem_singleton, List.not_mem_nil, or_false] at he
    rcases he with rfl | rfl | rfl <;> rfl
  | some base =>
    have key : ∃ rest : List Event,
        (newHaConfigFrom tmplText baseDir params env).trace
          = [Event.sdAdd 1, Event.tempDir baseDir "haproxy-connect-",
             Event.go (cleanupTask base), Event.parseTemplate] ++ rest ∧
        tasksStarted rest = [] := by
      simp only [newHaConfigFrom, ht]
      cases templateParse tmplText with
      | none => exact ⟨[], rfl, rfl⟩
      | some tmpl =>
        simp only []
        cases env.openHAProxy with
        | false => exact ⟨_, rfl, rfl⟩
        | true =>
          simp only [Bool.not_true, Bool.false_eq_true, if_false]
          cases createRandomString env.rand with
          | none => exact ⟨_, rfl, rfl⟩
          | some pass =>
            simp only []
            split
            · refine ⟨_, rfl, ?_⟩
              simp only [List.append_eq, List.nil_append, tasksStarted_append,
                tasksStarted_writeChunks, tasksStarted_closeFile, tasksStarted,
                List.append_nil]
            · cases env.openSPOE with
              | false =>
                refine ⟨_, rfl, ?_⟩
                simp only [List.append_eq, List.nil_append, tasksStarted_append,
                  tasksStarted_writeChunks, tasksStarted_closeFile, tasksStarted,
                  List.append_nil]
              | true =>
                simp only [Bool.not_true, Bool.false_eq_true, if_false]
                cases env.writeSPOE with
                | false =>
                  refine ⟨_, rfl, ?_⟩
                  simp only [List.append_eq, List.nil_append, tasksStarted_append,
                    tasksStarted_writeChunks, tasksStarted_closeFile, tasksStarted,
                    List.append_nil]
                | true =>
                  refine ⟨_, rfl, ?_⟩
                  simp only [List.append_eq, List.nil_append, tasksStarted_append,
                    tasksStarted_writeChunks, tasksStarted_closeFile, tasksStarted,
                    List.append_nil]
    obtain ⟨rest, h1, h2⟩ := key
    refine ⟨⟨rest, h1, h2⟩, ?_, rfl⟩
    rw [h1, tasksStarted_append, h2]
    rfl

set_option maxRecDepth 100000 in
/-- Claim C1 does not hold of the code. When the directory was created and the main
config file opened, a failure of `tmpl.Execute`, of opening the agent config file or of
writing it makes the call run `sd.Done()` itself although the cleanup task it started
will run its deferred `sd.Done()` as well: one `sd.Add(1)` is followed by two releases.
A failure to open the main config file, which returns without `sd.Done()`, gives one
release, and so does a call without failure. -/
theorem done_twice_after_late_failure :
    ((newHaConfig "/tmp" { Defaults := [], Globals := [] } failingExecuteEnv).result
        = Except.error Error.execute ∧
      addedInCall (newHaConfig "/tmp" { Defaults := [], Globals := [] } failingExecuteEnv).trace
        = 1 ∧
      doneInCall (newHaConfig "/tmp" { Defaults := [], Globals := [] } failingExecuteEnv).trace
        = 1 ∧
      doneInTasks (newHaConfig "/tmp" { Defaults := [], Globals := [] } failingExecuteEnv).trace
        = 1) ∧
    ((newHaConfig "/tmp" { Defaults := [], Globals := [] } failingOpenSpoeEnv).result
        = Except.error (Error.openFile "/tmp/haproxy-connect-123456789/spoe.conf") ∧
      addedInCall (newHaConfig "/tmp" { Defaults := [], Globals := [] } failingOpenSpoeEnv).trace
        = 1 ∧
      doneInCall (newHaConfig "/tmp" { Defaults := [], Globals := [] } failingOpenSpoeEnv).trace
        = 1 ∧
      doneInTasks (newHaConfig "/tmp" { Defaults := [], Globals := [] } failingOpenSpoeEnv).trace
        = 1) ∧
    ((newHaConfig "/tmp" { Defaults := [], Globals := [] } failingWriteSpoeEnv).result
        = Except.error (Error.write "/tmp/haproxy-connect-123456789/spoe.conf") ∧
      addedInCall (newHaConfig "/tmp" { Defaults := [], Globals := [] } failingWriteSpoeEnv).trace
        = 1 ∧
      doneInCall (newHaConfig "/tmp" { Defaults := [], Globals := [] } failingWriteSpoeEnv).trace
        = 1 ∧
      doneInTasks
          (newHaConfig "/tmp" { Defaults := [], Globals := [] } failingWriteSpoeEnv).trace
        = 1) ∧
    ((newHaConfig "/tmp" { Defaults := [], Globals := [] }
          { sampleEnv with openHAProxy := false }).result
        = Except.error (Error.openFile "/tmp/haproxy-connect-123456789/haproxy.conf") ∧
      doneInCall (newHaConfig "/tmp" { Defaults := [], Globals := [] }
          { sampleEnv with openHAProxy := false }).trace = 0 ∧
      doneInTasks (newHaConfig "/tmp" { Defaults := [], Globals := [] }
          { sampleEnv with openHAProxy := false }).trace = 1) ∧
    (doneInCall (newHaConfig "/tmp" { Defaults := [], Globals := [] } sampleEnv).trace = 0 ∧
      doneInTasks (newHaConfig "/tmp" { Defaults := [], Globals := [] } sampleEnv).trace = 1) := by
  refine ⟨⟨rfl, ?_, ?_, ?_⟩, ⟨rfl, ?_, ?_, ?_⟩, ⟨rfl, ?_, ?_, ?_⟩, ⟨rfl, ?_, ?_⟩, ?_, ?_⟩ <;>
    decide

end HaproxyConfig
